import Mathlib

/-!
Shallow embedding of the merge engine of the Nickel evaluator
(src/src/eval/merge.rs) together with the supporting data model, and of the
argument-order canonicalisation of the AST-to-term bridge
(src/core/src/bytecode/ast/compat.rs).

Record fields are association lists (the Rust code uses hash maps; the
embedding keeps insertion order, which is irrelevant for the claims, all
stated through lookups).  Stateful code (the cache of recursive thunks, the
fresh-identifier counter, the call stack) is explicit state passing.  Rust
panics (`unwrap`, `unreachable!`) are modelled as a dedicated failure
variant, separate from the evaluator's structured errors.

The cache, the environment, priorities, labels and record attributes live
outside the sampled sources; they are modelled from the specification and
marked as such in their doc comments.
-/

namespace Nickel

/-- Modelled from the spec: source positions.  A position is either an
original span, an inherited span, or absent.  Spans are opaque. -/
inductive TermPos : Type where
  | original (span : Nat)
  | inherited (span : Nat)
  | noPos
deriving DecidableEq, Repr

/-- `TermPos::into_inherited`: an original position becomes inherited. -/
def TermPos.into_inherited : TermPos → TermPos
  | .original s => .inherited s
  | p => p

/-- Modelled from the spec: diagnostic labels for contract errors.  Only the
parts the merge engine touches are kept: the user-facing diagnostic message
and notes, plus an opaque tag standing for the rest of the label (polarity,
spans, ...). -/
structure Label : Type where
  diag_message : String := ""
  diag_notes : List String := []
  tag : Nat := 0
deriving DecidableEq, Repr

/-- `Label::with_diagnostic_message`. -/
def Label.with_diagnostic_message (l : Label) (msg : String) : Label :=
  { l with diag_message := msg }

/-- `Label::with_diagnostic_notes`. -/
def Label.with_diagnostic_notes (l : Label) (ns : List String) : Label :=
  { l with diag_notes := ns }

/-- Modelled from the spec: field priorities, a three-constructor value with
the total order Bottom < Neutral x < Neutral y (iff x < y) < Top.  The
numeric payload is a rational. -/
inductive MergePriority : Type where
  | bottom
  | neutral (n : ℚ)
  | top
deriving DecidableEq, Repr

/-- Modelled from the spec: the default priority is Neutral 0. -/
def MergePriority.default : MergePriority := .neutral 0

/-- Modelled from the spec: the strict order on priorities. -/
def MergePriority.blt : MergePriority → MergePriority → Bool
  | .bottom, .bottom => false
  | .bottom, _ => true
  | .neutral _, .bottom => false
  | .neutral a, .neutral b => decide (a < b)
  | .neutral _, .top => true
  | .top, _ => false

/-- `p1 > p2` on priorities, as used by `merge_fields`. -/
def MergePriority.bgt (a b : MergePriority) : Bool := MergePriority.blt b a

/-- Modelled from the spec: an opaque type expression carried by a labeled
type.  The merge engine never inspects it. -/
structure TypeRepr : Type where
  code : Nat
deriving DecidableEq, Repr

/-- Modelled from the spec: a type together with its blame label. -/
structure LabeledType : Type where
  typ : TypeRepr
  label : Label
deriving DecidableEq, Repr

/-- The type annotation of a field: an optional declared type and a list of
contract annotations (`TypeAnnotation` in the source; shortened name). -/
structure TypeAnnot : Type where
  typ : Option LabeledType := none
  contracts : List LabeledType := []
deriving DecidableEq, Repr

/-- Field metadata: documentation, annotation, optional flag, not-exported
flag and priority (`FieldMetadata` in the source). -/
structure FieldMetadata : Type where
  doc : Option String := none
  annot : TypeAnnot := {}
  opt : Bool := false
  not_exported : Bool := false
  priority : MergePriority := MergePriority.default
deriving DecidableEq, Repr

/-- Modelled from the spec: record attributes.  In the sampled era the only
attribute is the openness flag; `RecordAttrs::merge` is the logical OR. -/
structure RecordAttrs : Type where
  isOpen : Bool := false
deriving DecidableEq, Repr

/-- `RecordAttrs::merge`: logical OR of the openness flags. -/
def RecordAttrs.merge (a b : RecordAttrs) : RecordAttrs :=
  { isOpen := a.isOpen || b.isOpen }

/-- Modelled from the spec: array attributes (opaque to merge except for the
closurized flag set on the empty-array result). -/
structure ArrayAttrs : Type where
  closurized : Bool := false
deriving DecidableEq, Repr

/-- `ArrayAttrs::new().closurized()`. -/
def ArrayAttrs.newClosurized : ArrayAttrs := { closurized := true }

/-- Identifiers.  Nickel interns identifiers; the embedding uses strings.
Fresh identifiers produced by the monotonic counter render as `%<n>`. -/
abbrev Ident := String

/-- The fresh identifier with counter value `n` (`Ident::fresh`). -/
def freshIdent (n : Nat) : Ident := "%" ++ toString n

/-- Modelled from the spec: an environment maps identifiers to cache
indices; insertion shadows (the latest binding wins). -/
structure Environment : Type where
  bindings : List (Ident × Nat) := []
deriving DecidableEq, Repr

/-- Environment lookup: first (most recent) binding wins. -/
def Environment.get (e : Environment) (x : Ident) : Option Nat :=
  (e.bindings.find? (fun p => p.1 = x)).map Prod.snd

/-- Shadowing insertion. -/
def Environment.insert (e : Environment) (x : Ident) (i : Nat) : Environment :=
  ⟨(x, i) :: e.bindings⟩

/-- `Environment::new()`. -/
def Environment.new : Environment := ⟨[]⟩

/-- Modelled from the spec: dependency sets of revertible cache entries,
kept as lists of identifiers. -/
abbrev FieldDeps := List Ident

/-- `FieldDeps::empty`. -/
def FieldDeps.empty : FieldDeps := []

/-- `FieldDeps::union`. -/
def FieldDeps.union (a b : FieldDeps) : FieldDeps := a ++ b

/-- Modelled from the spec: binding type of a cache entry, standard or
revertible with a dependency set. -/
inductive BindingType : Type where
  | standard
  | revertible (deps : FieldDeps)
deriving DecidableEq, Repr

/-- Call stacks are opaque lists of frames. -/
abbrev CallStack := List Nat

/-- The action component of a sealed-tail access error (modelled from the
spec; merge only produces the `merge` action). -/
inductive TailAction : Type where
  | fieldAccess
  | merge
deriving DecidableEq, Repr

/-- Merging mode: standard, or record-contract application with a label. -/
inductive MergeMode : Type where
  | standard
  | contract (label : Label)
deriving DecidableEq, Repr

/-- The binary operator constructor used by the merge engine when building
deferred recursive merges (`BinaryOp::Merge()`); other operators are opaque
to merge. -/
inductive BinOp : Type where
  | mergeOp
  | other (code : Nat)
deriving DecidableEq, Repr

mutual

/-- The term variants the merge engine distinguishes (`Term` in the
source).  Terms opaque to merge other than functions are not needed by any
claim; functions are kept because merge treats them specially (catch-all). -/
inductive Term : Type where
  | null
  | bool (b : Bool)
  | num (n : ℚ)
  | str (s : String)
  | lbl (l : Label)
  | enum (tag : Ident)
  | array (elts : List RichTerm) (attrs : ArrayAttrs)
  | record (data : RecordData)
  | recRecord (data : RecordData)
  | lam (x : Ident) (body : RichTerm)
  | var (x : Ident)
  | op2 (op : BinOp) (t1 t2 : RichTerm)
  | app (t1 t2 : RichTerm)

/-- A term together with its position (`RichTerm`). -/
inductive RichTerm : Type where
  | mk (term : Term) (pos : TermPos)

/-- Record data: fields (association list, keys unique), attributes, and an
optional sealed tail (`RecordData`). -/
inductive RecordData : Type where
  | mk (fields : List (Ident × Field)) (attrs : RecordAttrs)
      (sealed_tail : Option SealedTail)

/-- A sealed record tail; merge only ever reads its label, the sealed term
itself stays opaque (`record::SealedTail`). -/
inductive SealedTail : Type where
  | mk (label : Label)

/-- A record field: optional value, metadata, pending contracts (`Field`). -/
inductive Field : Type where
  | mk (value : Option RichTerm) (metadata : FieldMetadata)
      (pending_contracts : List PendingContract)

/-- A pending contract: contract term plus label (`PendingContract`). -/
inductive PendingContract : Type where
  | mk (contract : RichTerm) (label : Label)

end

def RichTerm.term : RichTerm → Term
  | .mk t _ => t

def RichTerm.pos : RichTerm → TermPos
  | .mk _ p => p

/-- `RichTerm::from(Term)`: a term with no position. -/
def RichTerm.fromTerm (t : Term) : RichTerm := .mk t .noPos

/-- `RichTerm::with_pos`. -/
def RichTerm.with_pos (t : RichTerm) (p : TermPos) : RichTerm := .mk t.term p

def RecordData.fields : RecordData → List (Ident × Field)
  | .mk fs _ _ => fs

def RecordData.attrs : RecordData → RecordAttrs
  | .mk _ a _ => a

def RecordData.sealed_tail : RecordData → Option SealedTail
  | .mk _ _ s => s

def SealedTail.label : SealedTail → Label
  | .mk l => l

def Field.value : Field → Option RichTerm
  | .mk v _ _ => v

def Field.metadata : Field → FieldMetadata
  | .mk _ m _ => m

def Field.pending_contracts : Field → List PendingContract
  | .mk _ _ pcs => pcs

def PendingContract.contract : PendingContract → RichTerm
  | .mk c _ => c

def PendingContract.label : PendingContract → Label
  | .mk _ l => l

/-- `PendingContract::map_contract`: map a function over the contract term,
keeping the label. -/
def PendingContract.map_contract (f : RichTerm → RichTerm)
    (pc : PendingContract) : PendingContract :=
  .mk (f pc.contract) pc.label

/-- Association-list lookup keyed by identifiers: first binding wins. -/
def alookup {α : Type} (k : Ident) : List (Ident × α) → Option α
  | [] => none
  | (k', v) :: rest => if k' = k then some v else alookup k rest

/-- The structured evaluation errors the merge engine produces
(`EvalError`; only the variants reachable from merge). -/
inductive EvalError : Type where
  | mergeIncompatibleArgs (t1 t2 : RichTerm) (pos_op : TermPos)
  | blameError (evaluated_arg : Option RichTerm) (label : Label)
      (call_stack : CallStack)
  | illegalPolymorphicTailAccess (action : TailAction)
      (evaluated_arg : Option RichTerm) (label : Label)
      (call_stack : CallStack)
  | unboundIdentifier (id : Ident) (pos : TermPos)

/-- Failure channel of the embedded merge: a structured evaluation error, or
a Rust panic (`unwrap` on `None`/`Err`, `unreachable!`). -/
inductive MergeFailure : Type where
  | err (e : EvalError)
  | panicked (msg : String)

/-- Modelled from the spec: a cache entry stores a thunk (body and
environment), its original body for reversion, and its binding type. -/
structure CacheEntry : Type where
  body : RichTerm
  env : Environment
  original_body : RichTerm
  orig_env : Environment
  bty : BindingType

/-- Modelled from the spec: the recursive-value cache, a content-addressed
store of thunks indexed by allocation order. -/
abbrev Cache := List CacheEntry

/-- The dummy entry produced when an out-of-range index is dereferenced;
the spec's invariants rule this out for reachable states. -/
def CacheEntry.dummy : CacheEntry :=
  ⟨RichTerm.fromTerm .null, Environment.new, RichTerm.fromTerm .null,
    Environment.new, .standard⟩

/-- `Cache::get`. -/
def Cache.getEntry (c : Cache) (i : Nat) : CacheEntry := c.getD i CacheEntry.dummy

/-- Modelled from the spec: `add` stores a thunk and returns its index; a
revertible binding with an empty dependency set is optimised into a
standard entry. -/
def Cache.add (c : Cache) (body : RichTerm) (env : Environment)
    (bty : BindingType) : Cache × Nat :=
  let bty := match bty with
    | .revertible [] => .standard
    | b => b
  (c ++ [⟨body, env, body, env, bty⟩], c.length)

/-- Modelled from the spec: `revert` allocates a fresh index whose body is
the `original_body` of the source entry; the new entry is revertible with
the same dependencies. -/
def Cache.revert (c : Cache) (i : Nat) : Cache × Nat :=
  let e := c.getEntry i
  (c ++ [⟨e.original_body, e.orig_env, e.original_body, e.orig_env, e.bty⟩],
    c.length)

/-- Modelled from the spec: `deps` returns the dependency set of a
revertible entry, `none` for a standard one. -/
def Cache.deps (c : Cache) (i : Nat) : Option FieldDeps :=
  match (c.getEntry i).bty with
  | .standard => none
  | .revertible ds => some ds

/-- Modelled from the spec: the evaluator state threaded through merge — the
cache, the monotonic fresh-identifier counter, and the call stack. -/
structure EvalSt : Type where
  cache : Cache
  fresh : Nat
  callStack : CallStack

/-- Modelled from the spec: `Label::get_evaluated_arg`, an opaque label
utility retrieving the evaluated contract argument from the cache.  No claim
inspects its output beyond identity of the call, so it is modelled as
returning nothing. -/
def Label.get_evaluated_arg (_l : Label) (_c : Cache) : Option RichTerm :=
  none

/-- A closure: a term paired with an environment. -/
structure Closure : Type where
  body : RichTerm
  env : Environment

/-- `Closure::atomic_closure`: a closure with an empty environment. -/
def Closure.atomic_closure (t : RichTerm) : Closure := ⟨t, Environment.new⟩

/-- Modelled from the spec: `Cache::saturate`.  For a standard entry the
thunk is referenced as-is through a fresh variable.  For a revertible entry
the body reference is abstracted over the dependencies occurring among the
sibling field names and applied to the corresponding sibling variables, so
that later evaluation sees the merged siblings. -/
def Cache.saturate (c : Cache) (fresh : Nat) (i : Nat) (env : Environment)
    (fieldNames : List Ident) : RichTerm × Environment × Nat :=
  let x := freshIdent fresh
  let env := env.insert x i
  match c.deps i with
  | none => (RichTerm.fromTerm (.var x), env, fresh + 1)
  | some ds =>
      let xs := fieldNames.filter (fun f => ds.contains f)
      (xs.foldl (fun acc f => RichTerm.fromTerm (.app acc (RichTerm.fromTerm (.var f))))
        (RichTerm.fromTerm (.var x)), env, fresh + 1)

/-- `impl Saturate for RichTerm`: a variable bound in `local_env` is
saturated through the cache; an unbound variable raises
`UnboundIdentifier`; a non-variable term is returned unchanged. -/
def RichTerm.saturate (t : RichTerm) (st : EvalSt) (env : Environment)
    (local_env : Environment) (fieldNames : List Ident) :
    Except EvalError (RichTerm × EvalSt × Environment) :=
  match t with
  | .mk (.var x) p =>
      match local_env.get x with
      | none => .error (.unboundIdentifier x p)
      | some i =>
          let (t', env', fresh') := st.cache.saturate st.fresh i env fieldNames
          .ok (t'.with_pos p, { st with fresh := fresh' }, env')
  | _ => .ok (t, st, env)

/-- `field_deps`: the dependencies of a field value — the cache dependencies
of the referenced entry when the value is a bound variable, the empty set
for a non-variable term, `UnboundIdentifier` for an unbound variable. -/
def field_deps (c : Cache) (t : RichTerm) (local_env : Environment) :
    Except EvalError FieldDeps :=
  match t with
  | .mk (.var x) p =>
      match local_env.get x with
      | none => .error (.unboundIdentifier x p)
      | some i => .ok ((c.deps i).getD FieldDeps.empty)
  | _ => .ok FieldDeps.empty

/-- `impl RevertClosurize for RichTerm`: a variable is rebound to a fresh
identifier pointing at a reverted copy of its cache entry; the fresh binding
is added to `env`.  A non-variable (constant) term passes through.  The
`unwrap` on an unbound variable is the panic case. -/
def RichTerm.revert_closurize (t : RichTerm) (st : EvalSt)
    (env : Environment) (with_env : Environment) :
    Except MergeFailure (RichTerm × EvalSt × Environment) :=
  match t with
  | .mk (.var x) p =>
      match with_env.get x with
      | none => .error (.panicked "unwrap: unbound variable in revert_closurize")
      | some i =>
          let (c', j) := st.cache.revert i
          let fresh_id := freshIdent st.fresh
          .ok (.mk (.var fresh_id) p,
            { st with cache := c', fresh := st.fresh + 1 },
            env.insert fresh_id j)
  | _ => .ok (t, st, env)

/-- `impl RevertClosurize for PendingContract`: revert-closurize the
contract term, keep the label. -/
def PendingContract.revert_closurize (pc : PendingContract) (st : EvalSt)
    (env : Environment) (with_env : Environment) :
    Except MergeFailure (PendingContract × EvalSt × Environment) :=
  match pc.contract.revert_closurize st env with_env with
  | .error e => .error e
  | .ok (t', st', env') => .ok (.mk t' pc.label, st', env')

/-- `impl RevertClosurize for Vec<PendingContract>`: pointwise, in order,
threading cache and environment. -/
def revert_closurize_pending (pcs : List PendingContract) (st : EvalSt)
    (env : Environment) (with_env : Environment) :
    Except MergeFailure (List PendingContract × EvalSt × Environment) :=
  match pcs with
  | [] => .ok ([], st, env)
  | pc :: rest =>
      match pc.revert_closurize st env with_env with
      | .error e => .error e
      | .ok (pc', st', env') =>
          match revert_closurize_pending rest st' env' with_env with
          | .error e => .error e
          | .ok (rest', st'', env'') => .ok (pc' :: rest', st'', env'')

/-- `impl RevertClosurize for Field`: revert-closurize the value (if any),
then the pending contracts; metadata is untouched. -/
def Field.revert_closurize (f : Field) (st : EvalSt) (env : Environment)
    (with_env : Environment) :
    Except MergeFailure (Field × EvalSt × Environment) :=
  match f.value with
  | none =>
      match revert_closurize_pending f.pending_contracts st env with_env with
      | .error e => .error e
      | .ok (pcs', st', env') => .ok (.mk none f.metadata pcs', st', env')
  | some v =>
      match v.revert_closurize st env with_env with
      | .error e => .error e
      | .ok (v', st', env') =>
          match revert_closurize_pending f.pending_contracts st' env' with_env with
          | .error e => .error e
          | .ok (pcs', st'', env'') => .ok (.mk (some v') f.metadata pcs', st'', env'')

/-- `fields_merge_closurize`: combine the dependency sets of the two field
values, saturate both values in a fresh local environment, store the
deferred merge `t1 & t2` in the cache as a revertible entry with the
combined dependencies (standard when empty), bind it to a fresh identifier
in the final environment, and return that variable. -/
def fields_merge_closurize (st : EvalSt) (env : Environment) (t1 : RichTerm)
    (env1 : Environment) (t2 : RichTerm) (env2 : Environment)
    (fieldNames : List Ident) :
    Except EvalError (RichTerm × EvalSt × Environment) :=
  let local_env := Environment.new
  match field_deps st.cache t1 env1 with
  | .error e => .error e
  | .ok d1 =>
      match field_deps st.cache t2 env2 with
      | .error e => .error e
      | .ok d2 =>
          let combined_deps := d1.union d2
          match t1.saturate st local_env env1 fieldNames with
          | .error e => .error e
          | .ok (s1, st, local_env) =>
              match t2.saturate st local_env env2 fieldNames with
              | .error e => .error e
              | .ok (s2, st, local_env) =>
                  let body := RichTerm.fromTerm (.op2 .mergeOp s1 s2)
                  let fresh_var := freshIdent st.fresh
                  let st := { st with fresh := st.fresh + 1 }
                  let (c', idx) :=
                    st.cache.add body local_env (.revertible combined_deps)
                  .ok (RichTerm.fromTerm (.var fresh_var),
                    { st with cache := c' }, env.insert fresh_var idx)

/-- `f64::EPSILON` as an exact rational.  The embedding models Nickel
numbers (`f64` in the sampled era) as rationals with exact arithmetic; the
configured epsilon of the forgiving numeric equality is the machine epsilon
of binary64. -/
def f64Epsilon : ℚ := 1 / 2 ^ 52

/-- `merge_doc`: first-wins combination of optional documentation. -/
def merge_doc (doc1 doc2 : Option String) : Option String := doc1.or doc2

/-- The value-selection step of `merge_fields`: pick either side's value,
or the recursive merge of the two, depending on which is defined and on the
respective priorities.  The arms are in source order; the `unwrap` on the
recursive-merge result and the `unreachable!` arm are the panic cases. -/
def merge_fields_value (st : EvalSt) (env_final : Environment)
    (value1 value2 : Option RichTerm) (metadata1 metadata2 : FieldMetadata)
    (env1 env2 : Environment) (fieldNames : List Ident) :
    Except MergeFailure ((Option RichTerm × MergePriority) × EvalSt × Environment) :=
  match value1, value2 with
  | some t1, some t2 =>
      if metadata1.priority = metadata2.priority then
        match fields_merge_closurize st env_final t1 env1 t2 env2 fieldNames with
        | .error _ => .error (.panicked "unwrap: fields_merge_closurize failed")
        | .ok (v, st', env') => .ok ((some v, metadata1.priority), st', env')
      else if metadata1.priority.bgt metadata2.priority then
        match t1.revert_closurize st env_final env1 with
        | .error e => .error e
        | .ok (v, st', env') => .ok ((some v, metadata1.priority), st', env')
      else if metadata2.priority.bgt metadata1.priority then
        match t2.revert_closurize st env_final env2 with
        | .error e => .error e
        | .ok (v, st', env') => .ok ((some v, metadata2.priority), st', env')
      else .error (.panicked "unreachable")
  | some t1, none =>
      match t1.revert_closurize st env_final env1 with
      | .error e => .error e
      | .ok (v, st', env') => .ok ((some v, metadata1.priority), st', env')
  | none, some t2 =>
      match t2.revert_closurize st env_final env2 with
      | .error e => .error e
      | .ok (v, st', env') => .ok ((some v, metadata2.priority), st', env')
  | none, none => .ok ((none, MergePriority.default), st, env_final)

/-- The annotation-combination step of `merge_fields`: the declared type is
`annot1.typ` if present, else `annot2.typ`; when both are present,
`annot2.typ` is demoted to a contract appended to `annot1.contracts`; the
contract lists are then concatenated, side 1 first. -/
def merge_annots (annot1 annot2 : TypeAnnot) : TypeAnnot :=
  let (typRes, contracts1) :=
    match annot1.typ, annot2.typ with
    | some ctr1, some ctr2 => (some ctr1, annot1.contracts ++ [ctr2])
    | ty1, ty2 => (ty1.or ty2, annot1.contracts)
  { typ := typRes, contracts := contracts1 ++ annot2.contracts }

/-- `merge_fields`: combine two record fields.  Value selection follows the
priorities, pending contracts are revert-closurized side 1 first, and
metadata is combined pointwise. -/
def merge_fields (st : EvalSt) (env_final : Environment) (field1 : Field)
    (env1 : Environment) (field2 : Field) (env2 : Environment)
    (fieldNames : List Ident) :
    Except MergeFailure (Field × EvalSt × Environment) :=
  let metadata1 := field1.metadata
  let metadata2 := field2.metadata
  match merge_fields_value st env_final field1.value field2.value metadata1
      metadata2 env1 env2 fieldNames with
  | .error e => .error e
  | .ok ((value, priority), st, env_final) =>
      match revert_closurize_pending field1.pending_contracts st env_final env1 with
      | .error e => .error e
      | .ok (pcs1, st, env_final) =>
          match revert_closurize_pending field2.pending_contracts st env_final env2 with
          | .error e => .error e
          | .ok (pcs2, st, env_final) =>
              let pending_contracts := pcs1 ++ pcs2
              let metadata : FieldMetadata :=
                { doc := merge_doc metadata1.doc metadata2.doc
                  annot := merge_annots metadata1.annot metadata2.annot
                  opt := metadata1.opt && metadata2.opt
                  not_exported := metadata1.not_exported || metadata2.not_exported
                  priority := priority }
              .ok (.mk value metadata pending_contracts, st, env_final)

/-- The three-way split of `hashmap::split` on association lists with unique
keys: `left` holds the bindings of `m1` whose key is not in `m2`, `right`
the dual, and `center` pairs the values of keys present in both. -/
structure SplitResult (β γ : Type) : Type where
  left : List (Ident × β)
  center : List (Ident × (β × γ))
  right : List (Ident × γ)

/-- `hashmap::split`. -/
def splitAssoc {β γ : Type} (m1 : List (Ident × β)) (m2 : List (Ident × γ)) :
    SplitResult β γ :=
  { left := m1.filter (fun p => (alookup p.1 m2).isNone)
    center := m1.filterMap (fun p => (alookup p.1 m2).map (fun v2 => (p.1, (p.2, v2))))
    right := m2.filter (fun p => (alookup p.1 m1).isNone) }

/-- Processing of the one-sided parts of the split: each field is
revert-closurized against its original environment, in order, threading the
cache and the output environment. -/
def processSide (l : List (Ident × Field)) (st : EvalSt) (env : Environment)
    (with_env : Environment) :
    Except MergeFailure (List (Ident × Field) × EvalSt × Environment) :=
  match l with
  | [] => .ok ([], st, env)
  | (id, f) :: rest =>
      match f.revert_closurize st env with_env with
      | .error e => .error e
      | .ok (f', st', env') =>
          match processSide rest st' env' with_env with
          | .error e => .error e
          | .ok (rest', st'', env'') => .ok ((id, f') :: rest', st'', env'')

/-- Processing of the center part of the split: each pair of fields is
combined by `merge_fields`, in order, threading the cache and the output
environment. -/
def processCenter (l : List (Ident × (Field × Field))) (st : EvalSt)
    (env : Environment) (env1 env2 : Environment) (fieldNames : List Ident) :
    Except MergeFailure (List (Ident × Field) × EvalSt × Environment) :=
  match l with
  | [] => .ok ([], st, env)
  | (id, (f1, f2)) :: rest =>
      match merge_fields st env f1 env1 f2 env2 fieldNames with
      | .error e => .error e
      | .ok (f', st', env') =>
          match processCenter rest st' env' env1 env2 fieldNames with
          | .error e => .error e
          | .ok (rest', st'', env'') => .ok ((id, f') :: rest', st'', env'')

/-- The diagnostic message of the closed-contract extra-fields blame error:
`extra field{plural} {fields_list}` with the extra field names backquoted
and comma-separated. -/
def extraFieldsMessage (ids : List Ident) : String :=
  let fields := ids.map (fun field => "\x60" ++ field ++ "\x60")
  let plural := if fields.length = 1 then "" else "s"
  let fields_list := String.intercalate "," fields
  "extra field" ++ plural ++ " " ++ fields_list

/-- The first diagnostic note of the extra-fields blame error. -/
def extraFieldsNote1 : String := "Have you misspelled a field?"

/-- The second diagnostic note of the extra-fields blame error. -/
def extraFieldsNote2 : String :=
  "The record contract might also be too strict. By default, record contracts exclude any field which is not listed.
Append \x60, ..\x60 at the end of the record contract, as in \x60\x7bsome_field | SomeContract, ..\x7d\x60, to make it accept extra fields."

/-- The collected field names of the merged record, used for saturation:
the keys of the left, center and right parts of the split, in that order. -/
def mergeFieldNames (r1 r2 : RecordData) : List Ident :=
  (splitAssoc r1.fields r2.fields).left.map Prod.fst ++
    (splitAssoc r1.fields r2.fields).center.map Prod.fst ++
    (splitAssoc r1.fields r2.fields).right.map Prod.fst

/-- The record-on-record case of `merge`: reject sealed tails, split the
field maps, run the contract-mode extra-field check, then build the merged
recursive record (one-sided fields revert-closurized against their side's
environment, shared fields combined by `merge_fields`). -/
def mergeRecords (st : EvalSt) (r1 r2 : RecordData) (pos1 pos_op : TermPos)
    (env1 env2 : Environment) (mode : MergeMode) :
    Except MergeFailure Closure × EvalSt :=
  match r1.sealed_tail.or r2.sealed_tail with
  | some tail =>
      (.error (.err (.illegalPolymorphicTailAccess .merge
        (tail.label.get_evaluated_arg st.cache) tail.label st.callStack)),
        { st with callStack := [] })
  | none =>
      let sp := splitAssoc r1.fields r2.fields
      let blameExtra : Bool :=
        match mode with
        | .contract _ => !r2.attrs.isOpen && !sp.left.isEmpty
        | .standard => false
      match mode, blameExtra with
      | .contract label, true =>
          let label := (label.with_diagnostic_message
              (extraFieldsMessage (sp.left.map Prod.fst))).with_diagnostic_notes
            [extraFieldsNote1, extraFieldsNote2]
          (.error (.err (.blameError (label.get_evaluated_arg st.cache)
            label [])), st)
      | _, _ =>
          let fieldNames := mergeFieldNames r1 r2
          let env := Environment.new
          match processSide sp.left st env env1 with
          | .error e => (.error e, st)
          | .ok (leftOut, st1, env) =>
              match processSide sp.right st1 env env2 with
              | .error e => (.error e, st)
              | .ok (rightOut, st2, env) =>
                  match processCenter sp.center st2 env env1 env2 fieldNames with
                  | .error e => (.error e, st)
                  | .ok (centerOut, st3, env) =>
                      let m := leftOut ++ rightOut ++ centerOut
                      let final_pos :=
                        if mode = .standard then pos_op.into_inherited
                        else pos1.into_inherited
                      (.ok ⟨.mk (.recRecord (.mk m
                          (RecordAttrs.merge r1.attrs r2.attrs) none))
                          final_pos, env⟩, st3)

/-- The merge engine (`merge` in src/src/eval/merge.rs): one step of the
merge of two evaluated operands, in the given mode, threading the evaluator
state. -/
def merge (st : EvalSt) (t1 : RichTerm) (env1 : Environment) (t2 : RichTerm)
    (env2 : Environment) (pos_op : TermPos) (mode : MergeMode) :
    Except MergeFailure Closure × EvalSt :=
  let pos1 := t1.pos
  let pos2 := t2.pos
  let incompatible (u1 u2 : Term) : Except MergeFailure Closure × EvalSt :=
    (.error (.err (.mergeIncompatibleArgs (.mk u1 pos1) (.mk u2 pos2) pos_op)), st)
  let catchAll (u1 u2 : Term) : Except MergeFailure Closure × EvalSt :=
    match mode, u2 with
    | .contract label, .record _ =>
        (.error (.err (.blameError (label.get_evaluated_arg st.cache) label
          st.callStack)), st)
    | _, _ => incompatible u1 u2
  match t1.term, t2.term with
  | .null, .null =>
      (.ok (Closure.atomic_closure (.mk .null pos_op.into_inherited)), st)
  | .bool b1, .bool b2 =>
      if b1 = b2 then
        (.ok (Closure.atomic_closure (.mk (.bool b1) pos_op.into_inherited)), st)
      else incompatible (.bool b1) (.bool b2)
  | .num n1, .num n2 =>
      if |n1 - n2| < f64Epsilon then
        (.ok (Closure.atomic_closure (.mk (.num n1) pos_op.into_inherited)), st)
      else incompatible (.num n1) (.num n2)
  | .str s1, .str s2 =>
      if s1 = s2 then
        (.ok (Closure.atomic_closure (.mk (.str s1) pos_op.into_inherited)), st)
      else incompatible (.str s1) (.str s2)
  | .lbl l1, .lbl l2 =>
      if l1 = l2 then
        (.ok (Closure.atomic_closure (.mk (.lbl l1) pos_op.into_inherited)), st)
      else incompatible (.lbl l1) (.lbl l2)
  | .enum i1, .enum i2 =>
      if i1 = i2 then
        (.ok (Closure.atomic_closure (.mk (.enum i1) pos_op.into_inherited)), st)
      else incompatible (.enum i1) (.enum i2)
  | .array arr1 attrs1, .array arr2 attrs2 =>
      if arr1.isEmpty && arr2.isEmpty then
        (.ok (Closure.atomic_closure
          (.mk (.array arr1 ArrayAttrs.newClosurized) pos_op.into_inherited)), st)
      else catchAll (.array arr1 attrs1) (.array arr2 attrs2)
  | .record r1, .record r2 =>
      mergeRecords st r1 r2 pos1 pos_op env1 env2 mode
  | u1, u2 => catchAll u1 u2

/-- The unified primitive-operator enumeration on the AST side of the
bridge (`PrimOp` in src/core/src/bytecode/ast/compat.rs), restricted to the
binary and n-ary operators the bridge maps; payloads the bridge copies
verbatim are kept as opaque naturals. -/
inductive PrimOp : Type where
  | plus | sub | mult | div | modulo | numberArcTan2 | numberLog | pow
  | stringConcat | eq | lessThan | lessOrEq | greaterThan | greaterOrEq
  | contractApply | contractCheck | labelWithErrorData | labelGoField
  | recordInsert (k : Nat) | recordRemove (k : Nat) | recordGet
  | recordHasField (k : Nat) | recordFieldIsDefined (k : Nat)
  | recordSplitPair | recordDisjointMerge | arrayConcat | arrayAt
  | mergePrim (k : Nat) | hash | serialize | deserialize | stringSplit
  | stringContains | stringCompare | contractArrayLazyApp
  | contractRecordLazyApp | labelWithMessage | labelWithNotes
  | labelAppendNote | labelLookupTypeVar
  | stringReplace | stringReplaceRegex | stringSubstr | mergeContract
  | recordSealTail | recordUnsealTail | labelInsertTypeVar | arraySlice
deriving DecidableEq, Repr

/-- `Vec::swap(0, 1)` on a list (indices in range for the bridge's uses). -/
def swap01 {α : Type} : List α → List α
  | a :: b :: rest => b :: a :: rest
  | l => l

/-- `Vec::swap(1, 2)` on a list (indices in range for the bridge's uses). -/
def swap12 {α : Type} : List α → List α
  | a :: b :: c :: rest => a :: c :: b :: rest
  | l => l

/-- The `Term::Op2` arm of the bridge (`ToAst for Term`): the two translated
arguments, swapped when the operator is `ArrayAt` or `StringContains`. -/
def op2ArgsToAst {α : Type} (op : PrimOp) (arg1 arg2 : α) : List α :=
  let args := [arg1, arg2]
  if op = .arrayAt || op = .stringContains then swap01 args else args

/-- The `Term::OpN` arm of the bridge (`ToAst for Term`): the translated
arguments, rotated by `swap(0,1); swap(1,2)` when the operator is
`StringSubstr`. -/
def opNArgsToAst {α : Type} (op : PrimOp) (args : List α) : List α :=
  if op = .stringSubstr then swap12 (swap01 args) else args

@[simp] theorem RichTerm.term_mk (t : Term) (p : TermPos) :
    (RichTerm.mk t p).term = t := rfl

@[simp] theorem RichTerm.pos_mk (t : Term) (p : TermPos) :
    (RichTerm.mk t p).pos = p := rfl

@[simp] theorem RecordData.fields_mk (fs : List (Ident × Field))
    (a : RecordAttrs) (s : Option SealedTail) :
    (RecordData.mk fs a s).fields = fs := rfl

@[simp] theorem RecordData.attrs_mk (fs : List (Ident × Field))
    (a : RecordAttrs) (s : Option SealedTail) :
    (RecordData.mk fs a s).attrs = a := rfl

@[simp] theorem RecordData.sealed_tail_mk (fs : List (Ident × Field))
    (a : RecordAttrs) (s : Option SealedTail) :
    (RecordData.mk fs a s).sealed_tail = s := rfl

@[simp] theorem Field.value_mk (v : Option RichTerm) (m : FieldMetadata)
    (pcs : List PendingContract) : (Field.mk v m pcs).value = v := rfl

@[simp] theorem Field.metadata_mk (v : Option RichTerm) (m : FieldMetadata)
    (pcs : List PendingContract) : (Field.mk v m pcs).metadata = m := rfl

@[simp] theorem Field.pending_contracts_mk (v : Option RichTerm)
    (m : FieldMetadata) (pcs : List PendingContract) :
    (Field.mk v m pcs).pending_contracts = pcs := rfl

@[simp] theorem alookup_nil {α : Type} (k : Ident) :
    alookup (α := α) k [] = none := rfl

@[simp] theorem alookup_cons {α : Type} (k k' : Ident) (v : α)
    (l : List (Ident × α)) :
    alookup k ((k', v) :: l) = if k' = k then some v else alookup k l := rfl

theorem alookup_append {α : Type} (k : Ident) (l1 l2 : List (Ident × α)) :
    alookup k (l1 ++ l2) = (alookup k l1).or (alookup k l2) := by
  induction l1 with
  | nil => simp
  | cons p rest ih =>
      obtain ⟨k', v⟩ := p
      by_cases h : k' = k <;> simp [h, ih]

theorem alookup_isSome_of_mem {α : Type} {p : Ident × α}
    {l : List (Ident × α)} (h : p ∈ l) : (alookup p.1 l).isSome := by
  induction l with
  | nil => simp at h
  | cons q rest ih =>
      obtain ⟨k', v⟩ := q
      rcases List.mem_cons.mp h with h' | h'
      · subst h'; simp
      · by_cases hk : k' = p.1 <;> simp [hk, ih h']

theorem alookup_filter_keyPred {α : Type} (k : Ident) (l : List (Ident × α))
    (P : Ident → Bool) :
    alookup k (l.filter (fun p => P p.1)) =
      if P k then alookup k l else none := by
  induction l with
  | nil => simp
  | cons p rest ih =>
      obtain ⟨k', v⟩ := p
      by_cases hk : k' = k
      · subst hk
        by_cases hp : P k' <;> simp [hp, List.filter_cons, ih]
      · by_cases hp : P k' <;> simp [hp, List.filter_cons, ih, hk]

theorem alookup_center {β γ : Type} (k : Ident) (m1 : List (Ident × β))
    (m2 : List (Ident × γ)) :
    alookup k (splitAssoc m1 m2).center =
      (alookup k m1).bind (fun v1 => (alookup k m2).map (fun v2 => (v1, v2))) := by
  simp only [splitAssoc]
  induction m1 with
  | nil => simp
  | cons p rest ih =>
      obtain ⟨k', v⟩ := p
      by_cases hk : k' = k
      · subst hk
        cases h2 : alookup k' m2 <;> simp [h2, List.filterMap_cons, ih]
      · cases h2 : alookup k' m2 <;> simp [h2, List.filterMap_cons, ih, hk]

theorem alookup_left {β γ : Type} (k : Ident) (m1 : List (Ident × β))
    (m2 : List (Ident × γ)) :
    alookup k (splitAssoc m1 m2).left =
      if (alookup k m2).isNone then alookup k m1 else none := by
  simpa only [splitAssoc] using
    alookup_filter_keyPred k m1 (fun i => (alookup i m2).isNone)

theorem alookup_right {β γ : Type} (k : Ident) (m1 : List (Ident × β))
    (m2 : List (Ident × γ)) :
    alookup k (splitAssoc m1 m2).right =
      if (alookup k m1).isNone then alookup k m2 else none := by
  simpa only [splitAssoc] using
    alookup_filter_keyPred k m2 (fun i => (alookup i m1).isNone)

theorem MergePriority.blt_irrefl (p : MergePriority) : p.blt p = false := by
  cases p <;> simp [MergePriority.blt]

theorem MergePriority.blt_asymm {a b : MergePriority}
    (h : a.blt b = true) : b.blt a = false := by
  cases a <;> cases b <;> simp_all [MergePriority.blt]
  linarith

theorem merge_record_reduce (st : EvalSt) (r1 r2 : RecordData)
    (p1 p2 pos_op : TermPos) (env1 env2 : Environment) (mode : MergeMode) :
    merge st (.mk (.record r1) p1) env1 (.mk (.record r2) p2) env2 pos_op mode =
      mergeRecords st r1 r2 p1 pos_op env1 env2 mode := rfl

theorem Field.revert_closurize_metadata {f g : Field} {st st' : EvalSt}
    {env wenv env' : Environment}
    (h : f.revert_closurize st env wenv = .ok (g, st', env')) :
    g.metadata = f.metadata ∧ (g.value).isSome = (f.value).isSome := by
  unfold Field.revert_closurize at h
  cases hv : f.value with
  | none =>
      simp only [hv] at h
      cases hp : revert_closurize_pending f.pending_contracts st env wenv with
      | error e => simp [hp] at h
      | ok out =>
          obtain ⟨pcs', stA, envA⟩ := out
          simp only [hp] at h
          cases h
          simp [hv]
  | some v =>
      simp only [hv] at h
      cases hr : v.revert_closurize st env wenv with
      | error e => simp [hr] at h
      | ok out =>
          obtain ⟨v', stA, envA⟩ := out
          simp only [hr] at h
          cases hp : revert_closurize_pending f.pending_contracts stA envA wenv with
          | error e => simp [hp] at h
          | ok out2 =>
              obtain ⟨pcs', stB, envB⟩ := out2
              simp only [hp] at h
              cases h
              simp [hv]

theorem processSide_lookup_none {l : List (Ident × Field)} {st st' : EvalSt}
    {env env' wenv : Environment} {out : List (Ident × Field)}
    (h : processSide l st env wenv = .ok (out, st', env')) (id : Ident)
    (hl : alookup id l = none) : alookup id out = none := by
  induction l generalizing st env out with
  | nil =>
      unfold processSide at h
      cases h
      simp
  | cons p rest ih =>
      obtain ⟨k, f⟩ := p
      unfold processSide at h
      cases hr : f.revert_closurize st env wenv with
      | error e => simp [hr] at h
      | ok o1 =>
          obtain ⟨f', stA, envA⟩ := o1
          simp only [hr] at h
          cases hrec : processSide rest stA envA wenv with
          | error e => simp [hrec] at h
          | ok o2 =>
              obtain ⟨rest', stB, envB⟩ := o2
              simp only [hrec] at h
              cases h
              simp only [alookup_cons] at hl ⊢
              rcases em (k = id) with hk | hk
              · simp [hk] at hl
              · simp only [hk, if_false] at hl ⊢
                exact ih hrec hl

theorem processSide_lookup_some {l : List (Ident × Field)} {st st' : EvalSt}
    {env env' wenv : Environment} {out : List (Ident × Field)}
    (h : processSide l st env wenv = .ok (out, st', env')) (id : Ident)
    {f : Field} (hl : alookup id l = some f) :
    ∃ g stA envA stB envB, f.revert_closurize stA envA wenv = .ok (g, stB, envB) ∧
      alookup id out = some g := by
  induction l generalizing st env out with
  | nil => simp at hl
  | cons p rest ih =>
      obtain ⟨k, fh⟩ := p
      unfold processSide at h
      cases hr : fh.revert_closurize st env wenv with
      | error e => simp [hr] at h
      | ok o1 =>
          obtain ⟨f', stA, envA⟩ := o1
          simp only [hr] at h
          cases hrec : processSide rest stA envA wenv with
          | error e => simp [hrec] at h
          | ok o2 =>
              obtain ⟨rest', stB, envB⟩ := o2
              simp only [hrec] at h
              cases h
              simp only [alookup_cons] at hl ⊢
              rcases em (k = id) with hk | hk
              · simp only [hk, if_true] at hl ⊢
                cases hl
                exact ⟨f', st, env, stA, envA, hr, rfl⟩
              · simp only [hk, if_false] at hl ⊢
                exact ih hrec hl

theorem processCenter_lookup_none {l : List (Ident × (Field × Field))}
    {st st' : EvalSt} {env env' env1 env2 : Environment}
    {names : List Ident} {out : List (Ident × Field)}
    (h : processCenter l st env env1 env2 names = .ok (out, st', env'))
    (id : Ident) (hl : alookup id l = none) : alookup id out = none := by
  induction l generalizing st env out with
  | nil =>
      unfold processCenter at h
      cases h
      simp
  | cons p rest ih =>
      obtain ⟨k, f1, f2⟩ := p
      unfold processCenter at h
      cases hr : merge_fields st env f1 env1 f2 env2 names with
      | error e => simp [hr] at h
      | ok o1 =>
          obtain ⟨f', stA, envA⟩ := o1
          simp only [hr] at h
          cases hrec : processCenter rest stA envA env1 env2 names with
          | error e => simp [hrec] at h
          | ok o2 =>
              obtain ⟨rest', stB, envB⟩ := o2
              simp only [hrec] at h
              cases h
              simp only [alookup_cons] at hl ⊢
              rcases em (k = id) with hk | hk
              · simp [hk] at hl
              · simp only [hk, if_false] at hl ⊢
                exact ih hrec hl

theorem processCenter_lookup_some {l : List (Ident × (Field × Field))}
    {st st' : EvalSt} {env env' env1 env2 : Environment}
    {names : List Ident} {out : List (Ident × Field)}
    (h : processCenter l st env env1 env2 names = .ok (out, st', env'))
    (id : Ident) {f1 f2 : Field} (hl : alookup id l = some (f1, f2)) :
    ∃ g stA envA stB envB,
      merge_fields stA envA f1 env1 f2 env2 names = .ok (g, stB, envB) ∧
      alookup id out = some g := by
  induction l generalizing st env out with
  | nil => simp at hl
  | cons p rest ih =>
      obtain ⟨k, g1, g2⟩ := p
      unfold processCenter at h
      cases hr : merge_fields st env g1 env1 g2 env2 names with
      | error e => simp [hr] at h
      | ok o1 =>
          obtain ⟨f', stA, envA⟩ := o1
          simp only [hr] at h
          cases hrec : processCenter rest stA envA env1 env2 names with
          | error e => simp [hrec] at h
          | ok o2 =>
              obtain ⟨rest', stB, envB⟩ := o2
              simp only [hrec] at h
              cases h
              simp only [alookup_cons] at hl ⊢
              rcases em (k = id) with hk | hk
              · simp only [hk, if_true] at hl ⊢
                cases hl
                exact ⟨f', st, env, stA, envA, hr, rfl⟩
              · simp only [hk, if_false] at hl ⊢
                exact ih hrec hl

theorem mergeRecords_ok {st st' : EvalSt} {r1 r2 : RecordData}
    {p1 pos_op : TermPos} {env1 env2 : Environment} {mode : MergeMode}
    {c : Closure}
    (h : mergeRecords st r1 r2 p1 pos_op env1 env2 mode = (.ok c, st')) :
    r1.sealed_tail = none ∧ r2.sealed_tail = none ∧
    ∃ leftOut rightOut centerOut st1 st2 envL envR envC,
      processSide (splitAssoc r1.fields r2.fields).left st Environment.new env1
        = .ok (leftOut, st1, envL) ∧
      processSide (splitAssoc r1.fields r2.fields).right st1 envL env2
        = .ok (rightOut, st2, envR) ∧
      processCenter (splitAssoc r1.fields r2.fields).center st2 envR env1 env2
        (mergeFieldNames r1 r2) = .ok (centerOut, st', envC) ∧
      c = ⟨.mk (.recRecord (.mk (leftOut ++ rightOut ++ centerOut)
            (RecordAttrs.merge r1.attrs r2.attrs) none))
          (if mode = .standard then pos_op.into_inherited
           else p1.into_inherited), envC⟩ := by
  unfold mergeRecords at h
  cases ht : r1.sealed_tail.or r2.sealed_tail with
  | some tail => simp [ht] at h
  | none =>
      simp only [ht] at h
      obtain ⟨ht1, ht2⟩ := Option.or_eq_none.mp ht
      refine ⟨ht1, ht2, ?_⟩
      cases mode with
      | standard =>
          simp only at h
          cases E1 : processSide (splitAssoc r1.fields r2.fields).left st
              Environment.new env1 with
          | error e => simp [E1] at h
          | ok o1 =>
              obtain ⟨leftOut, st1, envL⟩ := o1
              simp only [E1] at h
              cases E2 : processSide (splitAssoc r1.fields r2.fields).right st1
                  envL env2 with
              | error e => simp [E2] at h
              | ok o2 =>
                  obtain ⟨rightOut, st2, envR⟩ := o2
                  simp only [E2] at h
                  cases E3 : processCenter (splitAssoc r1.fields r2.fields).center
                      st2 envR env1 env2 (mergeFieldNames r1 r2) with
                  | error e => simp [E3] at h
                  | ok o3 =>
                      obtain ⟨centerOut, st3, envC⟩ := o3
                      simp only [E3] at h
                      rw [Prod.mk.injEq, Except.ok.injEq] at h
                      obtain ⟨hc, hst⟩ := h
                      subst hst
                      refine ⟨leftOut, rightOut, centerOut, st1, st2, envL,
                        envR, envC, rfl, E2, E3, ?_⟩
                      rw [← hc]
                      simp
      | contract lab =>
          simp only at h
          cases hB : (!r2.attrs.isOpen &&
              !(splitAssoc r1.fields r2.fields).left.isEmpty) with
          | true => simp only [hB] at h; simp at h
          | false =>
              simp only [hB] at h
              cases E1 : processSide (splitAssoc r1.fields r2.fields).left st
                  Environment.new env1 with
              | error e => simp [E1] at h
              | ok o1 =>
                  obtain ⟨leftOut, st1, envL⟩ := o1
                  simp only [E1] at h
                  cases E2 : processSide (splitAssoc r1.fields r2.fields).right st1
                      envL env2 with
                  | error e => simp [E2] at h
                  | ok o2 =>
                      obtain ⟨rightOut, st2, envR⟩ := o2
                      simp only [E2] at h
                      cases E3 : processCenter (splitAssoc r1.fields r2.fields).center
                          st2 envR env1 env2 (mergeFieldNames r1 r2) with
                      | error e => simp [E3] at h
                      | ok o3 =>
                          obtain ⟨centerOut, st3, envC⟩ := o3
                          simp only [E3] at h
                          rw [Prod.mk.injEq, Except.ok.injEq] at h
                          obtain ⟨hc, hst⟩ := h
                          subst hst
                          refine ⟨leftOut, rightOut, centerOut, st1, st2, envL,
                            envR, envC, rfl, E2, E3, ?_⟩
                          rw [← hc]

/-- C7: for every two numbers `n` and `m`, `merge(Number n, Number m)`
succeeds if and only if `|n − m| < ε` for the configured epsilon, in which
case the result is `Number n` (the left operand) with position inherited
from `pos_op`; otherwise it fails with `MergeIncompatibleArgs` carrying the
two operands and the operator position.  The state is untouched either
way. -/
theorem merge_numbers_epsilon (st : EvalSt) (n m : ℚ) (env1 env2 : Environment)
    (p1 p2 pos_op : TermPos) (mode : MergeMode) :
    merge st (.mk (.num n) p1) env1 (.mk (.num m) p2) env2 pos_op mode =
      (if |n - m| < f64Epsilon
       then (.ok (Closure.atomic_closure (.mk (.num n) pos_op.into_inherited)), st)
       else (.error (.err (.mergeIncompatibleArgs (.mk (.num n) p1)
         (.mk (.num m) p2) pos_op)), st)) := by
  by_cases h : |n - m| < f64Epsilon <;> simp [merge, h]

/-- C10: in Standard mode, merging a function with anything — on either
side, including a syntactically identical function — falls into the
catch-all case and fails with `MergeIncompatibleArgs` carrying the two
terms and the operator position. -/
theorem merge_function_incompatible (st : EvalSt) (t1 t2 : RichTerm)
    (env1 env2 : Environment) (pos_op : TermPos)
    (h : (∃ x b, t1.term = .lam x b) ∨ (∃ x b, t2.term = .lam x b)) :
    merge st t1 env1 t2 env2 pos_op .standard =
      (.error (.err (.mergeIncompatibleArgs t1 t2 pos_op)), st) := by
  obtain ⟨u1, q1⟩ := t1
  obtain ⟨u2, q2⟩ := t2
  rcases h with ⟨x, b, hx⟩ | ⟨x, b, hx⟩
  · simp only [RichTerm.term_mk] at hx
    subst hx
    cases u2 <;> rfl
  · simp only [RichTerm.term_mk] at hx
    subst hx
    cases u1 <;> rfl

/-- C10 witness: merging the identity function with a syntactically
identical copy of itself fails with `MergeIncompatibleArgs`. -/
theorem merge_function_incompatible_witness :
    merge ⟨[], 0, []⟩ (.mk (.lam "x" (.mk (.var "x") .noPos)) .noPos)
        Environment.new (.mk (.lam "x" (.mk (.var "x") .noPos)) .noPos)
        Environment.new (.original 0) .standard =
      (.error (.err (.mergeIncompatibleArgs
        (.mk (.lam "x" (.mk (.var "x") .noPos)) .noPos)
        (.mk (.lam "x" (.mk (.var "x") .noPos)) .noPos) (.original 0))),
       ⟨[], 0, []⟩) :=
  merge_function_incompatible ⟨[], 0, []⟩ _ _ Environment.new Environment.new
    (.original 0) (Or.inl ⟨"x", .mk (.var "x") .noPos, rfl⟩)

/-- C3: merging two records where either side carries a sealed tail fails
with `IllegalPolymorphicTailAccess` whose action is `Merge`, whose label and
evaluated argument come from the sealed tail's label, and whose call stack
is taken by move: the error carries the evaluator's stack and the
evaluator's stack is left empty. -/
theorem merge_sealed_tail_rejected (st : EvalSt) (r1 r2 : RecordData)
    (p1 p2 pos_op : TermPos) (env1 env2 : Environment) (mode : MergeMode)
    (tail : SealedTail) (h : r1.sealed_tail.or r2.sealed_tail = some tail) :
    merge st (.mk (.record r1) p1) env1 (.mk (.record r2) p2) env2 pos_op mode =
      (.error (.err (.illegalPolymorphicTailAccess .merge
        (tail.label.get_evaluated_arg st.cache) tail.label st.callStack)),
       { st with callStack := [] }) := by
  rw [merge_record_reduce]
  unfold mergeRecords
  rw [h]

/-- C3 witness: merging a record with a sealed tail (label tag 9) into a
plain empty record fails with the dedicated error, the error carries the
old call stack, and the evaluator's call stack is emptied. -/
theorem merge_sealed_tail_rejected_witness :
    merge ⟨[], 0, [5, 7]⟩ (.mk (.record (.mk [] {} (some (.mk ⟨"m", [], 9⟩))))
        .noPos) Environment.new (.mk (.record (.mk [] {} none)) .noPos)
        Environment.new (.original 3) .standard =
      (.error (.err (.illegalPolymorphicTailAccess .merge
        ((SealedTail.mk ⟨"m", [], 9⟩).label.get_evaluated_arg [])
        (SealedTail.mk ⟨"m", [], 9⟩).label [5, 7])),
       ⟨[], 0, []⟩) :=
  merge_sealed_tail_rejected ⟨[], 0, [5, 7]⟩ (.mk [] {} (some (.mk ⟨"m", [], 9⟩)))
    (.mk [] {} none) .noPos .noPos (.original 3) Environment.new
    Environment.new .standard (.mk ⟨"m", [], 9⟩) rfl

/-- C9: the AST-to-term bridge canonicalises primitive-operator argument
order: `ArrayAt` and `StringContains` swap their two operands, `StringSubstr`
rotates (string, start, end) to (start, end, string), and every other
primitive operator keeps its argument order. -/
theorem bridge_arg_order {α : Type} (op : PrimOp) (a1 a2 s b e : α)
    (args : List α) :
    ((op = .arrayAt ∨ op = .stringContains) → op2ArgsToAst op a1 a2 = [a2, a1]) ∧
    (op ≠ .arrayAt → op ≠ .stringContains → op2ArgsToAst op a1 a2 = [a1, a2]) ∧
    opNArgsToAst .stringSubstr [s, b, e] = [b, e, s] ∧
    (op ≠ .stringSubstr → opNArgsToAst op args = args) := by
  refine ⟨?_, ?_, rfl, ?_⟩
  · rintro (rfl | rfl) <;> rfl
  · intro h1 h2
    simp [op2ArgsToAst, h1, h2]
  · intro h
    simp [opNArgsToAst, h]

/-- C9 witness: `Plus` keeps its order, `ArrayAt` swaps, `StringSubstr`
rotates. -/
theorem bridge_arg_order_witness :
    op2ArgsToAst PrimOp.plus 1 2 = [1, 2] ∧
    op2ArgsToAst PrimOp.arrayAt 1 2 = [2, 1] ∧
    opNArgsToAst PrimOp.stringSubstr [1, 2, 3] = [2, 3, 1] :=
  ⟨(bridge_arg_order PrimOp.plus 1 2 1 2 3 []).2.1 (by decide) (by decide),
   (bridge_arg_order PrimOp.arrayAt 1 2 1 2 3 []).1 (Or.inl rfl),
   (bridge_arg_order PrimOp.plus 0 0 1 2 3 []).2.2.1⟩

theorem merge_fields_ok_shape {st st' : EvalSt} {envF envO : Environment}
    {f1 f2 : Field} {env1 env2 : Environment} {names : List Ident} {out : Field}
    (h : merge_fields st envF f1 env1 f2 env2 names = .ok (out, st', envO)) :
    ∃ value priority stV envV pcs1 stA envA pcs2,
      merge_fields_value st envF f1.value f2.value f1.metadata f2.metadata
        env1 env2 names = .ok ((value, priority), stV, envV) ∧
      revert_closurize_pending f1.pending_contracts stV envV env1
        = .ok (pcs1, stA, envA) ∧
      revert_closurize_pending f2.pending_contracts stA envA env2
        = .ok (pcs2, st', envO) ∧
      out = .mk value
        { doc := merge_doc f1.metadata.doc f2.metadata.doc
          annot := merge_annots f1.metadata.annot f2.metadata.annot
          opt := f1.metadata.opt && f2.metadata.opt
          not_exported := f1.metadata.not_exported || f2.metadata.not_exported
          priority := priority } (pcs1 ++ pcs2) := by
  unfold merge_fields at h
  cases hv : merge_fields_value st envF f1.value f2.value f1.metadata
      f2.metadata env1 env2 names with
  | error e => simp [hv] at h
  | ok o1 =>
      obtain ⟨⟨value, priority⟩, stV, envV⟩ := o1
      simp only [hv] at h
      cases hp1 : revert_closurize_pending f1.pending_contracts stV envV env1 with
      | error e => simp [hp1] at h
      | ok o2 =>
          obtain ⟨pcs1, stA, envA⟩ := o2
          simp only [hp1] at h
          cases hp2 : revert_closurize_pending f2.pending_contracts stA envA env2 with
          | error e => simp [hp2] at h
          | ok o3 =>
              obtain ⟨pcs2, stB, envB⟩ := o3
              simp only [hp2] at h
              cases h
              exact ⟨value, priority, stV, envV, pcs1, stA, envA, pcs2,
                rfl, hp1, hp2, rfl⟩

theorem merge_annots_typ (a1 a2 : TypeAnnot) :
    (merge_annots a1 a2).typ = (a1.typ).or (a2.typ) := by
  unfold merge_annots
  cases h1 : a1.typ <;> cases h2 : a2.typ <;> simp

theorem merge_annots_contracts_both {a1 a2 : TypeAnnot} {ctr1 ctr2 : LabeledType}
    (h1 : a1.typ = some ctr1) (h2 : a2.typ = some ctr2) :
    (merge_annots a1 a2).contracts = (a1.contracts ++ [ctr2]) ++ a2.contracts := by
  unfold merge_annots
  simp [h1, h2]

theorem merge_annots_contracts_other {a1 a2 : TypeAnnot}
    (h : a1.typ = none ∨ a2.typ = none) :
    (merge_annots a1 a2).contracts = a1.contracts ++ a2.contracts := by
  unfold merge_annots
  rcases h with h | h
  · cases h2 : a2.typ <;> simp [h, h2]
  · cases h1 : a1.typ <;> simp [h, h1]

/-- C8: when `merge_fields` combines two fields, the resulting metadata is:
declared type `ann1.typ` if present else `ann2.typ`, with `ann2.typ` demoted
to a contract appended to the end of `ann1.contracts` when both are present;
contract list `ann1.contracts` followed by `ann2.contracts`; `opt` the AND
of the two flags; `not_exported` the OR; `doc` first-wins; and the pending
contracts are the revert-closurized list of side 1 followed by that of side
2, order preserved. -/
theorem merge_fields_metadata {st st' : EvalSt} {envF envO : Environment}
    {f1 f2 : Field} {env1 env2 : Environment} {names : List Ident} {out : Field}
    (h : merge_fields st envF f1 env1 f2 env2 names = .ok (out, st', envO)) :
    out.metadata.annot.typ
      = (f1.metadata.annot.typ).or (f2.metadata.annot.typ) ∧
    (∀ ctr1 ctr2, f1.metadata.annot.typ = some ctr1 →
      f2.metadata.annot.typ = some ctr2 →
      out.metadata.annot.contracts
        = (f1.metadata.annot.contracts ++ [ctr2]) ++ f2.metadata.annot.contracts) ∧
    ((f1.metadata.annot.typ = none ∨ f2.metadata.annot.typ = none) →
      out.metadata.annot.contracts
        = f1.metadata.annot.contracts ++ f2.metadata.annot.contracts) ∧
    out.metadata.opt = (f1.metadata.opt && f2.metadata.opt) ∧
    out.metadata.not_exported
      = (f1.metadata.not_exported || f2.metadata.not_exported) ∧
    out.metadata.doc = (f1.metadata.doc).or (f2.metadata.doc) ∧
    ∃ pcs1 pcs2 stV envV stA envA,
      revert_closurize_pending f1.pending_contracts stV envV env1
        = .ok (pcs1, stA, envA) ∧
      revert_closurize_pending f2.pending_contracts stA envA env2
        = .ok (pcs2, st', envO) ∧
      out.pending_contracts = pcs1 ++ pcs2 := by
  obtain ⟨value, priority, stV, envV, pcs1, stA, envA, pcs2, hv, hp1, hp2, ho⟩ :=
    merge_fields_ok_shape h
  subst ho
  refine ⟨merge_annots_typ .., ?_, ?_, rfl, rfl, rfl,
    pcs1, pcs2, stV, envV, stA, envA, hp1, hp2, rfl⟩
  · intro ctr1 ctr2 h1 h2
    simpa using merge_annots_contracts_both h1 h2
  · intro hor
    simpa using merge_annots_contracts_other hor

theorem MergePriority.ne_of_bgt {a b : MergePriority} (h : a.bgt b = true) :
    ¬(a = b) := by
  intro he
  subst he
  simp [MergePriority.bgt, MergePriority.blt_irrefl] at h

theorem MergePriority.bgt_asymm {a b : MergePriority} (h : a.bgt b = true) :
    b.bgt a = false :=
  MergePriority.blt_asymm h

/-- C2: in `merge_fields`, value selection is governed by the priorities:
equal priorities with both values present give the recursive merge via
`fields_merge_closurize` with the common priority; a strictly greater
priority on a side holding a value makes that side's value win
(revert-closurized, with that side's priority), whichever argument position
it occupies; a single present value is taken with its side's priority; and
two absent values give an absent value with the default priority. -/
theorem merge_fields_value_selection {st st' : EvalSt} {envF envO : Environment}
    {f1 f2 : Field} {env1 env2 : Environment} {names : List Ident} {out : Field}
    (h : merge_fields st envF f1 env1 f2 env2 names = .ok (out, st', envO)) :
    (∀ t1 t2, f1.value = some t1 → f2.value = some t2 →
      f1.metadata.priority = f2.metadata.priority →
      ∃ v stA envA,
        fields_merge_closurize st envF t1 env1 t2 env2 names = .ok (v, stA, envA) ∧
        out.value = some v ∧ out.metadata.priority = f1.metadata.priority) ∧
    (∀ t1, f1.value = some t1 →
      (f1.metadata.priority).bgt (f2.metadata.priority) = true →
      ∃ v stA envA, t1.revert_closurize st envF env1 = .ok (v, stA, envA) ∧
        out.value = some v ∧ out.metadata.priority = f1.metadata.priority) ∧
    (∀ t2, f2.value = some t2 →
      (f2.metadata.priority).bgt (f1.metadata.priority) = true →
      ∃ v stA envA, t2.revert_closurize st envF env2 = .ok (v, stA, envA) ∧
        out.value = some v ∧ out.metadata.priority = f2.metadata.priority) ∧
    (∀ t1, f1.value = some t1 → f2.value = none →
      ∃ v stA envA, t1.revert_closurize st envF env1 = .ok (v, stA, envA) ∧
        out.value = some v ∧ out.metadata.priority = f1.metadata.priority) ∧
    (∀ t2, f1.value = none → f2.value = some t2 →
      ∃ v stA envA, t2.revert_closurize st envF env2 = .ok (v, stA, envA) ∧
        out.value = some v ∧ out.metadata.priority = f2.metadata.priority) ∧
    (f1.value = none → f2.value = none →
      out.value = none ∧ out.metadata.priority = MergePriority.default) := by
  obtain ⟨value, priority, stV, envV, pcs1, stA0, envA0, pcs2, hv, hp1, hp2, ho⟩ :=
    merge_fields_ok_shape h
  subst ho
  refine ⟨?_, ?_, ?_, ?_, ?_, ?_⟩
  · intro t1 t2 h1 h2 hp
    rw [h1, h2] at hv
    simp only [merge_fields_value] at hv
    rw [if_pos hp] at hv
    cases hf : fields_merge_closurize st envF t1 env1 t2 env2 names with
    | error e => simp [hf] at hv
    | ok o =>
        obtain ⟨v, stA, envA⟩ := o
        simp only [hf] at hv
        cases hv
        exact ⟨v, _, _, rfl, rfl, rfl⟩
  · intro t1 h1 hgt
    rw [h1] at hv
    cases h2 : f2.value with
    | some t2 =>
        rw [h2] at hv
        simp only [merge_fields_value] at hv
        rw [if_neg (MergePriority.ne_of_bgt hgt), if_pos hgt] at hv
        cases hf : t1.revert_closurize st envF env1 with
        | error e => simp [hf] at hv
        | ok o =>
            obtain ⟨v, stA, envA⟩ := o
            simp only [hf] at hv
            cases hv
            exact ⟨v, _, _, rfl, rfl, rfl⟩
    | none =>
        rw [h2] at hv
        simp only [merge_fields_value] at hv
        cases hf : t1.revert_closurize st envF env1 with
        | error e => simp [hf] at hv
        | ok o =>
            obtain ⟨v, stA, envA⟩ := o
            simp only [hf] at hv
            cases hv
            exact ⟨v, _, _, rfl, rfl, rfl⟩
  · intro t2 h2 hgt
    rw [h2] at hv
    cases h1 : f1.value with
    | some t1 =>
        rw [h1] at hv
        simp only [merge_fields_value] at hv
        rw [if_neg (fun he => MergePriority.ne_of_bgt hgt he.symm),
          if_neg (by simp [MergePriority.bgt_asymm hgt]), if_pos hgt] at hv
        cases hf : t2.revert_closurize st envF env2 with
        | error e => simp [hf] at hv
        | ok o =>
            obtain ⟨v, stA, envA⟩ := o
            simp only [hf] at hv
            cases hv
            exact ⟨v, _, _, rfl, rfl, rfl⟩
    | none =>
        rw [h1] at hv
        simp only [merge_fields_value] at hv
        cases hf : t2.revert_closurize st envF env2 with
        | error e => simp [hf] at hv
        | ok o =>
            obtain ⟨v, stA, envA⟩ := o
            simp only [hf] at hv
            cases hv
            exact ⟨v, _, _, rfl, rfl, rfl⟩
  · intro t1 h1 h2
    rw [h1, h2] at hv
    simp only [merge_fields_value] at hv
    cases hf : t1.revert_closurize st envF env1 with
    | error e => simp [hf] at hv
    | ok o =>
        obtain ⟨v, stA, envA⟩ := o
        simp only [hf] at hv
        cases hv
        exact ⟨v, _, _, rfl, rfl, rfl⟩
  · intro t2 h1 h2
    rw [h1, h2] at hv
    simp only [merge_fields_value] at hv
    cases hf : t2.revert_closurize st envF env2 with
    | error e => simp [hf] at hv
    | ok o =>
        obtain ⟨v, stA, envA⟩ := o
        simp only [hf] at hv
        cases hv
        exact ⟨v, _, _, rfl, rfl, rfl⟩
  · intro h1 h2
    rw [h1, h2] at hv
    simp only [merge_fields_value] at hv
    cases hv
    exact ⟨rfl, rfl⟩

/-- A concrete field used by the C2 witness: value 1, default metadata. -/
def c2fv : Field := .mk (some (.mk (.num 1) .noPos)) {} []

/-- C2 witness: merging the field `c2fv` with itself (equal priorities, both
values present) selects the recursive merge, with the common priority. -/
theorem merge_fields_value_selection_witness :
    ∃ v stA envA,
      fields_merge_closurize ⟨[], 0, []⟩ Environment.new (.mk (.num 1) .noPos)
        Environment.new (.mk (.num 1) .noPos) Environment.new []
        = .ok (v, stA, envA) ∧
      (Field.mk (some (.mk (.var "%0") .noPos))
        { priority := MergePriority.neutral 0 } []).value = some v ∧
      (Field.mk (some (.mk (.var "%0") .noPos))
        { priority := MergePriority.neutral 0 } []).metadata.priority
        = c2fv.metadata.priority :=
  (merge_fields_value_selection (show merge_fields ⟨[], 0, []⟩ Environment.new
      c2fv Environment.new c2fv Environment.new []
      = .ok (.mk (some (.mk (.var "%0") .noPos))
          { priority := MergePriority.neutral 0 } [],
        ⟨[⟨.mk (.op2 .mergeOp (.mk (.num 1) .noPos) (.mk (.num 1) .noPos)) .noPos,
            Environment.new,
            .mk (.op2 .mergeOp (.mk (.num 1) .noPos) (.mk (.num 1) .noPos)) .noPos,
            Environment.new, .standard⟩], 1, []⟩,
        ⟨[("%0", 0)]⟩) from rfl)).1
    (.mk (.num 1) .noPos) (.mk (.num 1) .noPos) rfl rfl rfl

/-- A concrete field for the C8 witness: documentation, a declared type and
`opt = true`. -/
def c8f1 : Field := .mk none
  { doc := some "a"
    annot := { typ := some ⟨⟨1⟩, ⟨"l1", [], 1⟩⟩, contracts := [] }
    opt := true, not_exported := false, priority := .neutral 0 } []

/-- A concrete field for the C8 witness: no documentation, another declared
type and `not_exported = true`. -/
def c8f2 : Field := .mk none
  { doc := none
    annot := { typ := some ⟨⟨2⟩, ⟨"l2", [], 2⟩⟩, contracts := [] }
    opt := false, not_exported := true, priority := .neutral 0 } []

/-- C8 witness: merging `c8f1` and `c8f2` keeps the first declared type and
demotes the second one to a contract. -/
theorem merge_fields_metadata_witness :
    (Field.mk none
      { doc := some "a"
        annot := { typ := some ⟨⟨1⟩, ⟨"l1", [], 1⟩⟩
                   contracts := [⟨⟨2⟩, ⟨"l2", [], 2⟩⟩] }
        opt := false, not_exported := true,
        priority := .neutral 0 } []).metadata.annot.typ
      = (c8f1.metadata.annot.typ).or (c8f2.metadata.annot.typ) :=
  (merge_fields_metadata (show merge_fields ⟨[], 0, []⟩ Environment.new
      c8f1 Environment.new c8f2 Environment.new []
      = .ok (.mk none
          { doc := some "a"
            annot := { typ := some ⟨⟨1⟩, ⟨"l1", [], 1⟩⟩
                       contracts := [⟨⟨2⟩, ⟨"l2", [], 2⟩⟩] }
            opt := false, not_exported := true,
            priority := .neutral 0 } [],
        ⟨[], 0, []⟩, Environment.new) from rfl)).1

theorem RichTerm.revert_closurize_error {t : RichTerm} {st : EvalSt}
    {env wenv : Environment} {e : MergeFailure}
    (h : t.revert_closurize st env wenv = .error e) : ∃ msg, e = .panicked msg := by
  obtain ⟨u, p⟩ := t
  cases u <;> simp only [RichTerm.revert_closurize] at h <;> try cases h
  case var x =>
    cases hg : wenv.get x with
    | none => simp only [hg] at h; cases h; exact ⟨_, rfl⟩
    | some i => simp only [hg] at h; cases h

theorem revert_closurize_pending_error {pcs : List PendingContract}
    {st : EvalSt} {env wenv : Environment} {e : MergeFailure}
    (h : revert_closurize_pending pcs st env wenv = .error e) :
    ∃ msg, e = .panicked msg := by
  induction pcs generalizing st env with
  | nil => simp [revert_closurize_pending] at h
  | cons pc rest ih =>
      unfold revert_closurize_pending PendingContract.revert_closurize at h
      cases hr : pc.contract.revert_closurize st env wenv with
      | error e' =>
          simp only [hr] at h
          cases h
          exact RichTerm.revert_closurize_error hr
      | ok o =>
          obtain ⟨t', st', env'⟩ := o
          simp only [hr] at h
          cases hrec : revert_closurize_pending rest st' env' wenv with
          | error e' => simp only [hrec] at h; cases h; exact ih hrec
          | ok o2 => obtain ⟨a, b, c⟩ := o2; simp [hrec] at h

theorem Field.revert_closurize_error_field {f : Field} {st : EvalSt}
    {env wenv : Environment} {e : MergeFailure}
    (h : f.revert_closurize st env wenv = .error e) : ∃ msg, e = .panicked msg := by
  unfold Field.revert_closurize at h
  cases hv : f.value with
  | none =>
      simp only [hv] at h
      cases hp : revert_closurize_pending f.pending_contracts st env wenv with
      | error e' => simp only [hp] at h; cases h; exact revert_closurize_pending_error hp
      | ok o => obtain ⟨a, b, c⟩ := o; simp [hp] at h
  | some v =>
      simp only [hv] at h
      cases hr : v.revert_closurize st env wenv with
      | error e' => simp only [hr] at h; cases h; exact RichTerm.revert_closurize_error hr
      | ok o =>
          obtain ⟨v', stA, envA⟩ := o
          simp only [hr] at h
          cases hp : revert_closurize_pending f.pending_contracts stA envA wenv with
          | error e' => simp only [hp] at h; cases h; exact revert_closurize_pending_error hp
          | ok o2 => obtain ⟨a, b, c⟩ := o2; simp [hp] at h

theorem merge_fields_value_error {st : EvalSt} {envF : Environment}
    {v1 v2 : Option RichTerm} {m1 m2 : FieldMetadata}
    {env1 env2 : Environment} {names : List Ident} {e : MergeFailure}
    (h : merge_fields_value st envF v1 v2 m1 m2 env1 env2 names = .error e) :
    ∃ msg, e = .panicked msg := by
  cases v1 <;> cases v2 <;> simp only [merge_fields_value] at h
  case none.none => cases h
  case none.some t2 =>
      cases hr : t2.revert_closurize st envF env2 with
      | error e' => simp only [hr] at h; cases h; exact RichTerm.revert_closurize_error hr
      | ok o => obtain ⟨a, b, c⟩ := o; simp [hr] at h
  case some.none t1 =>
      cases hr : t1.revert_closurize st envF env1 with
      | error e' => simp only [hr] at h; cases h; exact RichTerm.revert_closurize_error hr
      | ok o => obtain ⟨a, b, c⟩ := o; simp [hr] at h
  case some.some t1 t2 =>
      by_cases hp : m1.priority = m2.priority
      · rw [if_pos hp] at h
        cases hf : fields_merge_closurize st envF t1 env1 t2 env2 names with
        | error e' => simp only [hf] at h; cases h; exact ⟨_, rfl⟩
        | ok o => obtain ⟨a, b, c⟩ := o; simp [hf] at h
      · rw [if_neg hp] at h
        by_cases hg1 : m1.priority.bgt m2.priority = true
        · rw [if_pos hg1] at h
          cases hr : t1.revert_closurize st envF env1 with
          | error e' => simp only [hr] at h; cases h; exact RichTerm.revert_closurize_error hr
          | ok o => obtain ⟨a, b, c⟩ := o; simp [hr] at h
        · rw [if_neg hg1] at h
          by_cases hg2 : m2.priority.bgt m1.priority = true
          · rw [if_pos hg2] at h
            cases hr : t2.revert_closurize st envF env2 with
            | error e' => simp only [hr] at h; cases h; exact RichTerm.revert_closurize_error hr
            | ok o => obtain ⟨a, b, c⟩ := o; simp [hr] at h
          · rw [if_neg hg2] at h
            cases h
            exact ⟨_, rfl⟩

theorem merge_fields_error {st : EvalSt} {envF : Environment} {f1 f2 : Field}
    {env1 env2 : Environment} {names : List Ident} {e : MergeFailure}
    (h : merge_fields st envF f1 env1 f2 env2 names = .error e) :
    ∃ msg, e = .panicked msg := by
  unfold merge_fields at h
  cases hv : merge_fields_value st envF f1.value f2.value f1.metadata
      f2.metadata env1 env2 names with
  | error e' => simp only [hv] at h; cases h; exact merge_fields_value_error hv
  | ok o =>
      obtain ⟨⟨value, priority⟩, stV, envV⟩ := o
      simp only [hv] at h
      cases hp1 : revert_closurize_pending f1.pending_contracts stV envV env1 with
      | error e' => simp only [hp1] at h; cases h; exact revert_closurize_pending_error hp1
      | ok o2 =>
          obtain ⟨pcs1, stA, envA⟩ := o2
          simp only [hp1] at h
          cases hp2 : revert_closurize_pending f2.pending_contracts stA envA env2 with
          | error e' => simp only [hp2] at h; cases h; exact revert_closurize_pending_error hp2
          | ok o3 => obtain ⟨a, b, c⟩ := o3; simp [hp2] at h

theorem processSide_error {l : List (Ident × Field)} {st : EvalSt}
    {env wenv : Environment} {e : MergeFailure}
    (h : processSide l st env wenv = .error e) : ∃ msg, e = .panicked msg := by
  induction l generalizing st env with
  | nil => simp [processSide] at h
  | cons p rest ih =>
      obtain ⟨k, f⟩ := p
      unfold processSide at h
      cases hr : f.revert_closurize st env wenv with
      | error e' => simp only [hr] at h; cases h; exact Field.revert_closurize_error_field hr
      | ok o =>
          obtain ⟨f', stA, envA⟩ := o
          simp only [hr] at h
          cases hrec : processSide rest stA envA wenv with
          | error e' => simp only [hrec] at h; cases h; exact ih hrec
          | ok o2 => obtain ⟨a, b, c⟩ := o2; simp [hrec] at h

theorem processCenter_error {l : List (Ident × (Field × Field))} {st : EvalSt}
    {env env1 env2 : Environment} {names : List Ident} {e : MergeFailure}
    (h : processCenter l st env env1 env2 names = .error e) :
    ∃ msg, e = .panicked msg := by
  induction l generalizing st env with
  | nil => simp [processCenter] at h
  | cons p rest ih =>
      obtain ⟨k, f1, f2⟩ := p
      unfold processCenter at h
      cases hr : merge_fields st env f1 env1 f2 env2 names with
      | error e' => simp only [hr] at h; cases h; exact merge_fields_error hr
      | ok o =>
          obtain ⟨f', stA, envA⟩ := o
          simp only [hr] at h
          cases hrec : processCenter rest stA envA env1 env2 names with
          | error e' => simp only [hrec] at h; cases h; exact ih hrec
          | ok o2 => obtain ⟨a, b, c⟩ := o2; simp [hrec] at h

/-- C4: in Contract(label) mode, merging a record `r1` against a closed
contract record `r2` fails with a blame error exactly when `r1` has at
least one field outside `r2`; the blame label's diagnostic message is
`extra field` followed by `s` iff there are two or more extra fields, then
the backquoted, comma-separated extra field names, and the label carries
exactly the two standard diagnostic notes.  The error's call stack is
fresh. -/
theorem merge_contract_extra_fields (st : EvalSt) (r1 r2 : RecordData)
    (p1 p2 pos_op : TermPos) (env1 env2 : Environment) (label : Label)
    (h1 : r1.sealed_tail = none) (h2 : r2.sealed_tail = none)
    (hopen : r2.attrs.isOpen = false) :
    ((splitAssoc r1.fields r2.fields).left ≠ [] →
      merge st (.mk (.record r1) p1) env1 (.mk (.record r2) p2) env2 pos_op
          (.contract label) =
        (.error (.err (.blameError
          (((label.with_diagnostic_message (extraFieldsMessage
              ((splitAssoc r1.fields r2.fields).left.map Prod.fst))).with_diagnostic_notes
            [extraFieldsNote1, extraFieldsNote2]).get_evaluated_arg st.cache)
          ((label.with_diagnostic_message (extraFieldsMessage
              ((splitAssoc r1.fields r2.fields).left.map Prod.fst))).with_diagnostic_notes
            [extraFieldsNote1, extraFieldsNote2]) [])), st)) ∧
    ((splitAssoc r1.fields r2.fields).left = [] →
      ∀ ea lab cs, (merge st (.mk (.record r1) p1) env1 (.mk (.record r2) p2)
        env2 pos_op (.contract label)).1 ≠ .error (.err (.blameError ea lab cs))) ∧
    (∀ ids : List Ident, ids ≠ [] →
      extraFieldsMessage ids = "extra field" ++ (if 2 ≤ ids.length then "s" else "")
        ++ " " ++ String.intercalate "," (ids.map (fun f => "\x60" ++ f ++ "\x60"))) ∧
    (∀ msg ns, ((label.with_diagnostic_message msg).with_diagnostic_notes
      ns).diag_notes = ns) := by
  refine ⟨?_, ?_, ?_, fun msg ns => rfl⟩
  · intro hne
    have hE : (splitAssoc r1.fields r2.fields).left.isEmpty = false := by
      cases hL : (splitAssoc r1.fields r2.fields).left with
      | nil => exact absurd hL hne
      | cons a as => rfl
    rw [merge_record_reduce]
    unfold mergeRecords
    simp [h1, h2, hopen, hE]
  · intro hnil ea lab cs
    rw [merge_record_reduce]
    unfold mergeRecords
    have hE : (splitAssoc r1.fields r2.fields).left.isEmpty = true := by
      rw [hnil]; rfl
    simp only [h1, h2, Option.or, hopen, hE]
    cases E1 : processSide (splitAssoc r1.fields r2.fields).left st
        Environment.new env1 with
    | error e =>
        obtain ⟨msg, rfl⟩ := processSide_error E1
        simp [E1]
    | ok o1 =>
        obtain ⟨leftOut, st1, envL⟩ := o1
        simp only [E1]
        cases E2 : processSide (splitAssoc r1.fields r2.fields).right st1
            envL env2 with
        | error e =>
            obtain ⟨msg, rfl⟩ := processSide_error E2
            simp [E2]
        | ok o2 =>
            obtain ⟨rightOut, st2, envR⟩ := o2
            simp only [E2]
            cases E3 : processCenter (splitAssoc r1.fields r2.fields).center
                st2 envR env1 env2 (mergeFieldNames r1 r2) with
            | error e =>
                obtain ⟨msg, rfl⟩ := processCenter_error E3
                simp [E3]
            | ok o3 =>
                obtain ⟨centerOut, st3, envC⟩ := o3
                simp [E3]
  · intro ids hne
    unfold extraFieldsMessage
    have hlen : (ids.map (fun field => "\x60" ++ field ++ "\x60")).length
        = ids.length := List.length_map ..
    rcases Nat.lt_or_ge ids.length 2 with hl | hl
    · have h1' : ids.length = 1 := by
        cases hq : ids.length with
        | zero => exact absurd (List.eq_nil_of_length_eq_zero hq) hne
        | succ n =>
            rw [hq] at hl
            omega
      simp [h1', hlen]
    · have hne1 : ¬(ids.length = 1) := by omega
      simp [hlen, hne1, hl]

/-- The value record of the C4 witness: fields `x` and `z`. -/
def c4r1 : RecordData := .mk
  [("x", .mk (some (.mk (.num 1) .noPos)) {} []), ("z", .mk none {} [])] {} none

/-- The closed contract record of the C4 witness: single field `y`. -/
def c4r2 : RecordData := .mk [("y", .mk none {} [])] {} none

/-- C4 witness: `{x = 1, z}` against the closed contract `{y}` blames with
message `extra fields` naming `x` and `z`, and the two standard notes. -/
theorem merge_contract_extra_fields_witness :
    merge ⟨[], 0, []⟩ (.mk (.record c4r1) .noPos) Environment.new
        (.mk (.record c4r2) .noPos) Environment.new (.original 3)
        (.contract ⟨"orig", [], 1⟩) =
      (.error (.err (.blameError none
        ⟨"extra fields \x60x\x60,\x60z\x60",
          [extraFieldsNote1, extraFieldsNote2], 1⟩ [])), ⟨[], 0, []⟩) := by
  have h := (merge_contract_extra_fields ⟨[], 0, []⟩ c4r1 c4r2 .noPos .noPos
    (.original 3) Environment.new Environment.new ⟨"orig", [], 1⟩ rfl rfl rfl).1
    (List.cons_ne_nil _ _)
  exact h

theorem merge_ok_lookup {st st' : EvalSt} {r1 r2 : RecordData}
    {p1 p2 pos_op : TermPos} {env1 env2 : Environment} {mode : MergeMode}
    {c : Closure}
    (hok : merge st (.mk (.record r1) p1) env1 (.mk (.record r2) p2) env2
      pos_op mode = (.ok c, st')) :
    ∃ m fp,
      c.body = .mk (.recRecord (.mk m (RecordAttrs.merge r1.attrs r2.attrs)
        none)) fp ∧
      (∀ id, (alookup id m).isSome ↔
        ((alookup id r1.fields).isSome ∨ (alookup id r2.fields).isSome)) ∧
      (∀ id f1, alookup id r1.fields = some f1 → alookup id r2.fields = none →
        ∃ g stA envA stB envB,
          f1.revert_closurize stA envA env1 = .ok (g, stB, envB) ∧
          alookup id m = some g) ∧
      (∀ id f2, alookup id r2.fields = some f2 → alookup id r1.fields = none →
        ∃ g stA envA stB envB,
          f2.revert_closurize stA envA env2 = .ok (g, stB, envB) ∧
          alookup id m = some g) ∧
      (∀ id f1 f2, alookup id r1.fields = some f1 →
        alookup id r2.fields = some f2 →
        ∃ g stA envA stB envB,
          merge_fields stA envA f1 env1 f2 env2 (mergeFieldNames r1 r2)
            = .ok (g, stB, envB) ∧
          alookup id m = some g) := by
  rw [merge_record_reduce] at hok
  obtain ⟨ht1, ht2, leftOut, rightOut, centerOut, st1, st2, envL, envR, envC,
    E1, E2, E3, hc⟩ := mergeRecords_ok hok
  refine ⟨leftOut ++ rightOut ++ centerOut,
    (if mode = .standard then pos_op.into_inherited else p1.into_inherited),
    by rw [hc], ?_, ?_, ?_, ?_⟩
  · intro id
    rw [alookup_append, alookup_append]
    cases h1 : alookup id r1.fields with
    | some f1 =>
        cases h2 : alookup id r2.fields with
        | none =>
            have hlf : alookup id (splitAssoc r1.fields r2.fields).left = some f1 := by
              rw [alookup_left, h1, h2]; rfl
            obtain ⟨g, _, _, _, _, _, hgl⟩ := processSide_lookup_some E1 id hlf
            simp [hgl]
        | some f2 =>
            have hlf : alookup id (splitAssoc r1.fields r2.fields).left = none := by
              rw [alookup_left, h2]; rfl
            have hrf : alookup id (splitAssoc r1.fields r2.fields).right = none := by
              rw [alookup_right, h1]; rfl
            have hcf : alookup id (splitAssoc r1.fields r2.fields).center
                = some (f1, f2) := by
              rw [alookup_center, h1, h2]; rfl
            have hLo := processSide_lookup_none E1 id hlf
            have hRo := processSide_lookup_none E2 id hrf
            obtain ⟨g, _, _, _, _, _, hgl⟩ := processCenter_lookup_some E3 id hcf
            simp [hLo, hRo, hgl]
    | none =>
        cases h2 : alookup id r2.fields with
        | none =>
            have hlf : alookup id (splitAssoc r1.fields r2.fields).left = none := by
              rw [alookup_left, h1, h2]; rfl
            have hrf : alookup id (splitAssoc r1.fields r2.fields).right = none := by
              rw [alookup_right, h1, h2]; rfl
            have hcf : alookup id (splitAssoc r1.fields r2.fields).center = none := by
              rw [alookup_center, h1]; rfl
            have hLo := processSide_lookup_none E1 id hlf
            have hRo := processSide_lookup_none E2 id hrf
            have hCo := processCenter_lookup_none E3 id hcf
            simp [hLo, hRo, hCo, h1, h2]
        | some f2 =>
            have hlf : alookup id (splitAssoc r1.fields r2.fields).left = none := by
              rw [alookup_left, h1, h2]; rfl
            have hrf : alookup id (splitAssoc r1.fields r2.fields).right = some f2 := by
              rw [alookup_right, h1, h2]; rfl
            have hcf : alookup id (splitAssoc r1.fields r2.fields).center = none := by
              rw [alookup_center, h1]; rfl
            have hLo := processSide_lookup_none E1 id hlf
            have hCo := processCenter_lookup_none E3 id hcf
            obtain ⟨g, _, _, _, _, _, hgl⟩ := processSide_lookup_some E2 id hrf
            simp [hLo, hCo, hgl]
  · intro id f1 h1 h2
    have hlf : alookup id (splitAssoc r1.fields r2.fields).left = some f1 := by
      rw [alookup_left, h1, h2]; rfl
    obtain ⟨g, stA, envA, stB, envB, hg, hgl⟩ := processSide_lookup_some E1 id hlf
    refine ⟨g, stA, envA, stB, envB, hg, ?_⟩
    rw [alookup_append, alookup_append, hgl]
    rfl
  · intro id f2 h2 h1
    have hlf : alookup id (splitAssoc r1.fields r2.fields).left = none := by
      rw [alookup_left, h1, h2]; rfl
    have hrf : alookup id (splitAssoc r1.fields r2.fields).right = some f2 := by
      rw [alookup_right, h1, h2]; rfl
    have hLo := processSide_lookup_none E1 id hlf
    obtain ⟨g, stA, envA, stB, envB, hg, hgl⟩ := processSide_lookup_some E2 id hrf
    refine ⟨g, stA, envA, stB, envB, hg, ?_⟩
    rw [alookup_append, alookup_append, hLo, hgl]
    rfl
  · intro id f1 f2 h1 h2
    have hlf : alookup id (splitAssoc r1.fields r2.fields).left = none := by
      rw [alookup_left, h2]; rfl
    have hrf : alookup id (splitAssoc r1.fields r2.fields).right = none := by
      rw [alookup_right, h1]; rfl
    have hcf : alookup id (splitAssoc r1.fields r2.fields).center
        = some (f1, f2) := by
      rw [alookup_center, h1, h2]; rfl
    have hLo := processSide_lookup_none E1 id hlf
    have hRo := processSide_lookup_none E2 id hrf
    obtain ⟨g, stA, envA, stB, envB, hg, hgl⟩ := processCenter_lookup_some E3 id hcf
    refine ⟨g, stA, envA, stB, envB, hg, ?_⟩
    rw [alookup_append, alookup_append, hLo, hRo, hgl]
    rfl

/-- C1: every successful merge of two records yields a recursive record
(`RecRecord`) with `attrs = RecordAttrs::merge(r1.attrs, r2.attrs)` and no
sealed tail, whose field set is exactly `keys(r1) ∪ keys(r2)`: a field only
in `r1` is `revert_closurize`d against `env1`, a field only in `r2` is
`revert_closurize`d against `env2`, and a field in both is combined by
`merge_fields` over the collected field names. -/
theorem merge_records_structure {st st' : EvalSt} {r1 r2 : RecordData}
    {p1 p2 pos_op : TermPos} {env1 env2 : Environment} {mode : MergeMode}
    {c : Closure}
    (hok : merge st (.mk (.record r1) p1) env1 (.mk (.record r2) p2) env2
      pos_op mode = (.ok c, st')) :
    ∃ m fp,
      c.body = .mk (.recRecord (.mk m (RecordAttrs.merge r1.attrs r2.attrs)
        none)) fp ∧
      (∀ id, (alookup id m).isSome ↔
        ((alookup id r1.fields).isSome ∨ (alookup id r2.fields).isSome)) ∧
      (∀ id f1, alookup id r1.fields = some f1 → alookup id r2.fields = none →
        ∃ g stA envA stB envB,
          f1.revert_closurize stA envA env1 = .ok (g, stB, envB) ∧
          alookup id m = some g) ∧
      (∀ id f2, alookup id r2.fields = some f2 → alookup id r1.fields = none →
        ∃ g stA envA stB envB,
          f2.revert_closurize stA envA env2 = .ok (g, stB, envB) ∧
          alookup id m = some g) ∧
      (∀ id f1 f2, alookup id r1.fields = some f1 →
        alookup id r2.fields = some f2 →
        ∃ g stA envA stB envB,
          merge_fields stA envA f1 env1 f2 env2 (mergeFieldNames r1 r2)
            = .ok (g, stB, envB) ∧
          alookup id m = some g) :=
  merge_ok_lookup hok

/-- The left record of the C1 witness: `{x = 1}`. -/
def c1r1 : RecordData := .mk [("x", .mk (some (.mk (.num 1) .noPos)) {} [])] {} none

/-- The right record of the C1 witness: `{y = 2}`. -/
def c1r2 : RecordData := .mk [("y", .mk (some (.mk (.num 2) .noPos)) {} [])] {} none

/-- The result closure of the C1 witness merge. -/
def c1out : Closure := ⟨.mk (.recRecord (.mk
  [("x", .mk (some (.mk (.num 1) .noPos)) {} []),
   ("y", .mk (some (.mk (.num 2) .noPos)) {} [])] {} none)) (.inherited 3),
  Environment.new⟩

/-- C1 witness: `{x = 1} & {y = 2}` in Standard mode builds a recursive
record over exactly the fields `x` and `y`. -/
theorem merge_records_structure_witness :
    ∃ m fp,
      c1out.body = .mk (.recRecord (.mk m
        (RecordAttrs.merge c1r1.attrs c1r2.attrs) none)) fp ∧
      (∀ id, (alookup id m).isSome ↔
        ((alookup id c1r1.fields).isSome ∨ (alookup id c1r2.fields).isSome)) ∧
      (∀ id f1, alookup id c1r1.fields = some f1 →
        alookup id c1r2.fields = none →
        ∃ g stA envA stB envB,
          f1.revert_closurize stA envA Environment.new = .ok (g, stB, envB) ∧
          alookup id m = some g) ∧
      (∀ id f2, alookup id c1r2.fields = some f2 →
        alookup id c1r1.fields = none →
        ∃ g stA envA stB envB,
          f2.revert_closurize stA envA Environment.new = .ok (g, stB, envB) ∧
          alookup id m = some g) ∧
      (∀ id f1 f2, alookup id c1r1.fields = some f1 →
        alookup id c1r2.fields = some f2 →
        ∃ g stA envA stB envB,
          merge_fields stA envA f1 Environment.new f2 Environment.new
            (mergeFieldNames c1r1 c1r2) = .ok (g, stB, envB) ∧
          alookup id m = some g) :=
  merge_records_structure (show merge ⟨[], 0, []⟩ (.mk (.record c1r1) .noPos)
    Environment.new (.mk (.record c1r2) .noPos) Environment.new (.original 3)
    .standard = (.ok c1out, ⟨[], 0, []⟩) from rfl)

/-- The atomic value variants (Null, Bool, Number, String, Enum, Label). -/
def Term.isAtomicValue : Term → Bool
  | .null | .bool _ | .num _ | .str _ | .lbl _ | .enum _ => true
  | _ => false

/-- The record `{x = 1}` used by the C5 counterexample. -/
def c5r : RecordData := .mk [("x", .mk (some (.mk (.num 1) .noPos)) {} [])] {} none

/-- C5 counterexample: merging `{x = 1}` with itself does not return a
record structurally equal to `{x = 1}`: the resulting field `x` holds a
fresh variable referring to a deferred merge thunk `1 & 1` in the cache,
not the original value `1`. -/
theorem merge_idempotence_counterexample :
    merge ⟨[], 0, []⟩ (.mk (.record c5r) .noPos) Environment.new
      (.mk (.record c5r) .noPos) Environment.new (.original 3) .standard
      = (.ok ⟨.mk (.recRecord (.mk
          [("x", .mk (some (.mk (.var "%0") .noPos)) {} [])] {} none))
          (.inherited 3), ⟨[("%0", 0)]⟩⟩,
        ⟨[⟨.mk (.op2 .mergeOp (.mk (.num 1) .noPos) (.mk (.num 1) .noPos)) .noPos,
           Environment.new,
           .mk (.op2 .mergeOp (.mk (.num 1) .noPos) (.mk (.num 1) .noPos)) .noPos,
           Environment.new, .standard⟩], 1, []⟩) ∧
    alookup "x" c5r.fields = some (.mk (some (.mk (.num 1) .noPos)) {} []) ∧
    (RichTerm.mk (.var "%0") .noPos) ≠ (RichTerm.mk (.num 1) .noPos) := by
  refine ⟨rfl, rfl, ?_⟩
  intro h
  injection h with ht hp
  cases ht

theorem merge_fields_self_priority {stA st' : EvalSt}
    {envA envO env : Environment} {f : Field} {names : List Ident} {g : Field}
    (hok : merge_fields stA envA f env f env names = .ok (g, st', envO))
    (hv : (f.value).isSome = true) :
    g.metadata.priority = f.metadata.priority := by
  obtain ⟨value, priority, stV, envV, pcs1, stA0, envA0, pcs2, hsel, hp1, hp2, ho⟩ :=
    merge_fields_ok_shape hok
  subst ho
  cases hval : f.value with
  | none => rw [hval] at hv; cases hv
  | some t =>
      rw [hval] at hsel
      simp only [merge_fields_value, if_true] at hsel
      cases hf : fields_merge_closurize stA envA t env t env names with
      | error e => simp [hf] at hsel
      | ok o =>
          obtain ⟨v, stB, envB⟩ := o
          simp only [hf] at hsel
          cases hsel
          rfl

/-- C5 (amended): merge is idempotent on atomic values — for every atomic
value `v` (Null, Bool, Number, String, Enum, Label), `merge(v, v)` in
Standard mode succeeds and returns `v` with position inherited from
`pos_op` and untouched state.  For a record `r` with no sealed tail, a
successful `merge(r, r)` yields a recursive record with exactly the field
names of `r`, and every field of `r` holding a value keeps its priority —
but the result is not structurally equal to `r` in general (see the
counterexample): shared-field values are rebuilt as deferred merge thunks
and contract lists are duplicated. -/
theorem merge_idempotence_amended :
    (∀ (st : EvalSt) (v : Term) (p1 p2 pos_op : TermPos)
      (env1 env2 : Environment), v.isAtomicValue = true →
      merge st (.mk v p1) env1 (.mk v p2) env2 pos_op .standard
        = (.ok (Closure.atomic_closure (.mk v pos_op.into_inherited)), st)) ∧
    (∀ (st st' : EvalSt) (r : RecordData) (p1 p2 pos_op : TermPos)
      (env : Environment) (c : Closure),
      merge st (.mk (.record r) p1) env (.mk (.record r) p2) env pos_op
        .standard = (.ok c, st') →
      ∃ m fp, c.body = .mk (.recRecord (.mk m
          (RecordAttrs.merge r.attrs r.attrs) none)) fp ∧
        (∀ id, (alookup id m).isSome ↔ (alookup id r.fields).isSome) ∧
        (∀ id f, alookup id r.fields = some f → (f.value).isSome = true →
          ∃ g, alookup id m = some g ∧
            g.metadata.priority = f.metadata.priority)) := by
  constructor
  · intro st v p1 p2 pos_op env1 env2 hatomic
    cases v <;> simp [Term.isAtomicValue] at hatomic
    case null => rfl
    case bool b => simp [merge]
    case num n =>
        have hpos : (0 : ℚ) < f64Epsilon := by
          rw [f64Epsilon]
          norm_num
        simp [merge, hpos]
    case str s => simp [merge]
    case lbl l => simp [merge]
    case enum tag => simp [merge]
  · intro st st' r p1 p2 pos_op env c hok
    rw [merge_record_reduce] at hok
    obtain ⟨ht1, ht2, leftOut, rightOut, centerOut, st1, st2, envL, envR, envC,
      E1, E2, E3, hc⟩ := mergeRecords_ok hok
    have hleft : (splitAssoc r.fields r.fields).left = [] := by
      simp only [splitAssoc]
      rw [List.filter_eq_nil_iff]
      intro p hp
      have hs := alookup_isSome_of_mem hp
      cases hq : alookup p.1 r.fields with
      | none => rw [hq] at hs; cases hs
      | some f => simp [hq]
    have hright : (splitAssoc r.fields r.fields).right = [] := by
      simp only [splitAssoc]
      rw [List.filter_eq_nil_iff]
      intro p hp
      have hs := alookup_isSome_of_mem hp
      cases hq : alookup p.1 r.fields with
      | none => rw [hq] at hs; cases hs
      | some f => simp [hq]
    rw [hleft] at E1
    rw [hright] at E2
    unfold processSide at E1 E2
    cases E1
    cases E2
    refine ⟨[] ++ [] ++ centerOut, pos_op.into_inherited, by rw [hc]; rfl, ?_, ?_⟩
    · intro id
      cases h1 : alookup id r.fields with
      | none =>
          have hcf : alookup id (splitAssoc r.fields r.fields).center = none := by
            rw [alookup_center, h1]; rfl
          have hCo := processCenter_lookup_none E3 id hcf
          simp [hCo, h1]
      | some f =>
          have hcf : alookup id (splitAssoc r.fields r.fields).center
              = some (f, f) := by
            rw [alookup_center, h1]; rfl
          obtain ⟨g, _, _, _, _, _, hgl⟩ := processCenter_lookup_some E3 id hcf
          simp [hgl]
    · intro id f h1 hval
      have hcf : alookup id (splitAssoc r.fields r.fields).center
          = some (f, f) := by
        rw [alookup_center, h1]; rfl
      obtain ⟨g, stA, envA, stB, envB, hg, hgl⟩ :=
        processCenter_lookup_some E3 id hcf
      exact ⟨g, by simpa using hgl, merge_fields_self_priority hg hval⟩

/-- C5 witness: `merge(Null, Null)` returns `Null` at the inherited
operator position, and the record part applies to `{x = 1} & {x = 1}`. -/
theorem merge_idempotence_amended_witness :
    merge ⟨[], 0, []⟩ (.mk .null .noPos) Environment.new (.mk .null .noPos)
      Environment.new (.original 3) .standard
      = (.ok (Closure.atomic_closure (.mk .null (.inherited 3))), ⟨[], 0, []⟩) :=
  merge_idempotence_amended.1 ⟨[], 0, []⟩ .null .noPos .noPos (.original 3)
    Environment.new Environment.new rfl

/-- The declared type (if any) together with the contracts of an
annotation, as a single list; mirror-merged annotations agree up to
permutation of this list. -/
def annotCombined (a : TypeAnnot) : List LabeledType := a.typ.toList ++ a.contracts

theorem merge_annots_mirror_perm (a1 a2 : TypeAnnot) :
    (annotCombined (merge_annots a1 a2)).Perm
      (annotCombined (merge_annots a2 a1)) := by
  unfold annotCombined merge_annots
  cases h1 : a1.typ with
  | none =>
      cases h2 : a2.typ with
      | none => simpa using List.perm_append_comm
      | some c2 =>
          simp only [Option.toList_some, Option.or, Option.toList]
          simpa using (@List.perm_append_comm _ a1.contracts a2.contracts).cons c2
  | some c1 =>
      cases h2 : a2.typ with
      | none =>
          simp only [Option.toList_some, Option.or, Option.toList]
          simpa using (@List.perm_append_comm _ a1.contracts a2.contracts).cons c1
      | some c2 =>
          simp only [Option.toList_some]
          have step1 : ((a1.contracts ++ [c2]) ++ a2.contracts).Perm
              (c2 :: (a1.contracts ++ a2.contracts)) := by
            rw [List.append_assoc]
            exact List.perm_middle
          have step2 : ((a2.contracts ++ [c1]) ++ a1.contracts).Perm
              (c1 :: (a2.contracts ++ a1.contracts)) := by
            rw [List.append_assoc]
            exact List.perm_middle
          have hA' := step1.cons c1
          have hB' := step2.cons c2
          exact hA'.trans ((List.Perm.swap c2 c1
              (a1.contracts ++ a2.contracts)).trans
            (((List.perm_append_comm.cons c1).cons c2).trans hB'.symm))

theorem merge_fields_value_mirror {stA stB sA sB : EvalSt}
    {envA envB eA eB env1 env2 : Environment} {v1 v2 : Option RichTerm}
    {m1 m2 : FieldMetadata} {namesA namesB : List Ident}
    {valA valB : Option RichTerm} {pA pB : MergePriority}
    (hA : merge_fields_value stA envA v1 v2 m1 m2 env1 env2 namesA
      = .ok ((valA, pA), sA, eA))
    (hB : merge_fields_value stB envB v2 v1 m2 m1 env2 env1 namesB
      = .ok ((valB, pB), sB, eB)) :
    pA = pB ∧ valA.isSome = valB.isSome := by
  cases v1 with
  | none =>
      cases v2 with
      | none =>
          simp only [merge_fields_value] at hA hB
          cases hA
          cases hB
          exact ⟨rfl, rfl⟩
      | some t2 =>
          simp only [merge_fields_value] at hA hB
          cases hrA : t2.revert_closurize stA envA env2 with
          | error e => simp [hrA] at hA
          | ok oA =>
              obtain ⟨vA, s1, e1⟩ := oA
              simp only [hrA] at hA
              cases hA
              cases hrB : t2.revert_closurize stB envB env2 with
              | error e => simp [hrB] at hB
              | ok oB =>
                  obtain ⟨vB, s2, e2⟩ := oB
                  simp only [hrB] at hB
                  cases hB
                  exact ⟨rfl, rfl⟩
  | some t1 =>
      cases v2 with
      | none =>
          simp only [merge_fields_value] at hA hB
          cases hrA : t1.revert_closurize stA envA env1 with
          | error e => simp [hrA] at hA
          | ok oA =>
              obtain ⟨vA, s1, e1⟩ := oA
              simp only [hrA] at hA
              cases hA
              cases hrB : t1.revert_closurize stB envB env1 with
              | error e => simp [hrB] at hB
              | ok oB =>
                  obtain ⟨vB, s2, e2⟩ := oB
                  simp only [hrB] at hB
                  cases hB
                  exact ⟨rfl, rfl⟩
      | some t2 =>
          simp only [merge_fields_value] at hA hB
          by_cases hp : m1.priority = m2.priority
          · rw [if_pos hp] at hA
            rw [if_pos hp.symm] at hB
            cases hfA : fields_merge_closurize stA envA t1 env1 t2 env2 namesA with
            | error e => simp [hfA] at hA
            | ok oA =>
                obtain ⟨vA, s1, e1⟩ := oA
                simp only [hfA] at hA
                cases hA
                cases hfB : fields_merge_closurize stB envB t2 env2 t1 env1 namesB with
                | error e => simp [hfB] at hB
                | ok oB =>
                    obtain ⟨vB, s2, e2⟩ := oB
                    simp only [hfB] at hB
                    cases hB
                    exact ⟨hp, rfl⟩
          · rw [if_neg hp] at hA
            rw [if_neg (fun he => hp he.symm)] at hB
            by_cases hg1 : m1.priority.bgt m2.priority = true
            · rw [if_pos hg1] at hA
              rw [if_neg (by simp [MergePriority.bgt_asymm hg1]), if_pos hg1] at hB
              cases hrA : t1.revert_closurize stA envA env1 with
              | error e => simp [hrA] at hA
              | ok oA =>
                  obtain ⟨vA, s1, e1⟩ := oA
                  simp only [hrA] at hA
                  cases hA
                  cases hrB : t1.revert_closurize stB envB env1 with
                  | error e => simp [hrB] at hB
                  | ok oB =>
                      obtain ⟨vB, s2, e2⟩ := oB
                      simp only [hrB] at hB
                      cases hB
                      exact ⟨rfl, rfl⟩
            · rw [if_neg hg1] at hA
              by_cases hg2 : m2.priority.bgt m1.priority = true
              · rw [if_pos hg2] at hA
                rw [if_pos hg2] at hB
                cases hrA : t2.revert_closurize stA envA env2 with
                | error e => simp [hrA] at hA
                | ok oA =>
                    obtain ⟨vA, s1, e1⟩ := oA
                    simp only [hrA] at hA
                    cases hA
                    cases hrB : t2.revert_closurize stB envB env2 with
                    | error e => simp [hrB] at hB
                    | ok oB =>
                        obtain ⟨vB, s2, e2⟩ := oB
                        simp only [hrB] at hB
                        cases hB
                        exact ⟨rfl, rfl⟩
              · rw [if_neg hg2] at hA
                cases hA

theorem merge_fields_mirror {stA stB sA sB : EvalSt}
    {envA envB eA eB env1 env2 : Environment} {f1 f2 : Field}
    {namesA namesB : List Ident} {g h : Field}
    (hA : merge_fields stA envA f1 env1 f2 env2 namesA = .ok (g, sA, eA))
    (hB : merge_fields stB envB f2 env2 f1 env1 namesB = .ok (h, sB, eB)) :
    g.metadata.priority = h.metadata.priority ∧
    g.metadata.opt = h.metadata.opt ∧
    g.metadata.not_exported = h.metadata.not_exported ∧
    (annotCombined g.metadata.annot).Perm (annotCombined h.metadata.annot) ∧
    (g.value).isSome = (h.value).isSome := by
  obtain ⟨vA, pA, stVA, envVA, pcs1A, stAA, envAA, pcs2A, hvA, hp1A, hp2A, hoA⟩ :=
    merge_fields_ok_shape hA
  obtain ⟨vB, pB, stVB, envVB, pcs1B, stAB, envAB, pcs2B, hvB, hp1B, hp2B, hoB⟩ :=
    merge_fields_ok_shape hB
  subst hoA
  subst hoB
  obtain ⟨hpr, hval⟩ := merge_fields_value_mirror hvA hvB
  exact ⟨hpr, Bool.and_comm .., Bool.or_comm .., merge_annots_mirror_perm ..,
    hval⟩

/-- The record `{x = 1 | doc "a"}` of the C6 counterexample. -/
def c6r1 : RecordData := .mk
  [("x", .mk (some (.mk (.num 1) .noPos)) { doc := some "a" } [])] {} none

/-- The record `{x = 1 | doc "b"}` of the C6 counterexample. -/
def c6r2 : RecordData := .mk
  [("x", .mk (some (.mk (.num 1) .noPos)) { doc := some "b" } [])] {} none

/-- The cache entry allocated by each direction of the C6 counterexample
merge: the deferred thunk `1 & 1`. -/
def c6entry : CacheEntry :=
  ⟨.mk (.op2 .mergeOp (.mk (.num 1) .noPos) (.mk (.num 1) .noPos)) .noPos,
   Environment.new,
   .mk (.op2 .mergeOp (.mk (.num 1) .noPos) (.mk (.num 1) .noPos)) .noPos,
   Environment.new, .standard⟩

/-- C6 counterexample: merging `{x = 1 | doc "a"}` with `{x = 1 | doc "b"}`
in the two orders yields records whose field `x` carries metadata that is
not equal — documentation is first-wins, so one side reads `doc "a"` and
the other `doc "b"`.  The two results are therefore not semantically equal
merely up to field order and the choice of declared type. -/
theorem merge_commutativity_counterexample :
    merge ⟨[], 0, []⟩ (.mk (.record c6r1) .noPos) Environment.new
      (.mk (.record c6r2) .noPos) Environment.new (.original 3) .standard
      = (.ok ⟨.mk (.recRecord (.mk
          [("x", .mk (some (.mk (.var "%0") .noPos)) { doc := some "a" } [])]
          {} none)) (.inherited 3), ⟨[("%0", 0)]⟩⟩,
        ⟨[c6entry], 1, []⟩) ∧
    merge ⟨[], 0, []⟩ (.mk (.record c6r2) .noPos) Environment.new
      (.mk (.record c6r1) .noPos) Environment.new (.original 3) .standard
      = (.ok ⟨.mk (.recRecord (.mk
          [("x", .mk (some (.mk (.var "%0") .noPos)) { doc := some "b" } [])]
          {} none)) (.inherited 3), ⟨[("%0", 0)]⟩⟩,
        ⟨[c6entry], 1, []⟩) ∧
    ({ doc := some "a" } : FieldMetadata) ≠ ({ doc := some "b" } : FieldMetadata) := by
  refine ⟨rfl, rfl, ?_⟩
  decide

/-- C6 (amended): in Standard mode, merging two records in either order
gives recursive records with the same field set, and each common field's
results agree on priority, `opt`, `not_exported`, on the combined
type-and-contract annotations up to permutation (absorbing the arbitrary
choice between `ann1.typ` and `ann2.typ`), and on the presence of a value.
Documentation is excluded: `doc` is first-wins, so the two orders may keep
different docs (see the counterexample). -/
theorem merge_records_commutative_amended {stA stB stA' stB' : EvalSt}
    {r1 r2 : RecordData} {pA1 pA2 pB1 pB2 posA posB : TermPos}
    {env1 env2 : Environment} {c d : Closure}
    (hA : merge stA (.mk (.record r1) pA1) env1 (.mk (.record r2) pA2) env2
      posA .standard = (.ok c, stA'))
    (hB : merge stB (.mk (.record r2) pB1) env2 (.mk (.record r1) pB2) env1
      posB .standard = (.ok d, stB')) :
    ∃ mc md fpc fpd,
      c.body = .mk (.recRecord (.mk mc (RecordAttrs.merge r1.attrs r2.attrs)
        none)) fpc ∧
      d.body = .mk (.recRecord (.mk md (RecordAttrs.merge r2.attrs r1.attrs)
        none)) fpd ∧
      (∀ id, (alookup id mc).isSome ↔ (alookup id md).isSome) ∧
      (∀ id g h, alookup id mc = some g → alookup id md = some h →
        g.metadata.priority = h.metadata.priority ∧
        g.metadata.opt = h.metadata.opt ∧
        g.metadata.not_exported = h.metadata.not_exported ∧
        (annotCombined g.metadata.annot).Perm (annotCombined h.metadata.annot) ∧
        (g.value).isSome = (h.value).isSome) := by
  obtain ⟨mc, fpc, hbc, hkc, honlyLA, honlyRA, hbothA⟩ := merge_ok_lookup hA
  obtain ⟨md, fpd, hbd, hkd, honlyLB, honlyRB, hbothB⟩ := merge_ok_lookup hB
  refine ⟨mc, md, fpc, fpd, hbc, hbd, ?_, ?_⟩
  · intro id
    rw [hkc id, hkd id]
    exact or_comm
  · intro id g h hg hh
    cases h1 : alookup id r1.fields with
    | some f1 =>
        cases h2 : alookup id r2.fields with
        | none =>
            obtain ⟨g', _, _, _, _, hgrev, hgl⟩ := honlyLA id f1 h1 h2
            obtain ⟨h', _, _, _, _, hhrev, hhl⟩ := honlyRB id f1 h1 h2
            obtain ⟨hgm, hgv⟩ := Field.revert_closurize_metadata hgrev
            obtain ⟨hhm, hhv⟩ := Field.revert_closurize_metadata hhrev
            cases (hg.symm.trans hgl : some g = some g')
            cases (hh.symm.trans hhl : some h = some h')
            rw [hgm, hhm, hgv, hhv]
            exact ⟨rfl, rfl, rfl, List.Perm.refl _, rfl⟩
        | some f2 =>
            obtain ⟨g', _, _, _, _, hgmf, hgl⟩ := hbothA id f1 f2 h1 h2
            obtain ⟨h', _, _, _, _, hhmf, hhl⟩ := hbothB id f2 f1 h2 h1
            cases (hg.symm.trans hgl : some g = some g')
            cases (hh.symm.trans hhl : some h = some h')
            exact merge_fields_mirror hgmf hhmf
    | none =>
        cases h2 : alookup id r2.fields with
        | none =>
            have := (hkc id).mp (by rw [hg]; rfl)
            rw [h1, h2] at this
            simp at this
        | some f2 =>
            obtain ⟨g', _, _, _, _, hgrev, hgl⟩ := honlyRA id f2 h2 h1
            obtain ⟨h', _, _, _, _, hhrev, hhl⟩ := honlyLB id f2 h2 h1
            obtain ⟨hgm, hgv⟩ := Field.revert_closurize_metadata hgrev
            obtain ⟨hhm, hhv⟩ := Field.revert_closurize_metadata hhrev
            cases (hg.symm.trans hgl : some g = some g')
            cases (hh.symm.trans hhl : some h = some h')
            rw [hgm, hhm, hgv, hhv]
            exact ⟨rfl, rfl, rfl, List.Perm.refl _, rfl⟩

/-- C6 witness: the amended commutativity applied to `{x = 1}` and
`{y = 2}` in both orders. -/
theorem merge_records_commutative_amended_witness :
    ∃ mc md fpc fpd,
      (Closure.mk (.mk (.recRecord (.mk
          [("x", .mk (some (.mk (.num 1) .noPos)) {} []),
           ("y", .mk (some (.mk (.num 2) .noPos)) {} [])] {} none))
          (.inherited 3)) Environment.new).body
        = .mk (.recRecord (.mk mc (RecordAttrs.merge {} {}) none)) fpc ∧
      (Closure.mk (.mk (.recRecord (.mk
          [("y", .mk (some (.mk (.num 2) .noPos)) {} []),
           ("x", .mk (some (.mk (.num 1) .noPos)) {} [])] {} none))
          (.inherited 3)) Environment.new).body
        = .mk (.recRecord (.mk md (RecordAttrs.merge {} {}) none)) fpd ∧
      (∀ id, (alookup id mc).isSome ↔ (alookup id md).isSome) ∧
      (∀ id g h, alookup id mc = some g → alookup id md = some h →
        g.metadata.priority = h.metadata.priority ∧
        g.metadata.opt = h.metadata.opt ∧
        g.metadata.not_exported = h.metadata.not_exported ∧
        (annotCombined g.metadata.annot).Perm (annotCombined h.metadata.annot) ∧
        (g.value).isSome = (h.value).isSome) :=
  merge_records_commutative_amended
    (show merge ⟨[], 0, []⟩ (.mk (.record c1r1) .noPos) Environment.new
      (.mk (.record c1r2) .noPos) Environment.new (.original 3) .standard
      = (.ok ⟨.mk (.recRecord (.mk
          [("x", .mk (some (.mk (.num 1) .noPos)) {} []),
           ("y", .mk (some (.mk (.num 2) .noPos)) {} [])] {} none))
          (.inherited 3), Environment.new⟩, ⟨[], 0, []⟩) from rfl)
    (show merge ⟨[], 0, []⟩ (.mk (.record c1r2) .noPos) Environment.new
      (.mk (.record c1r1) .noPos) Environment.new (.original 3) .standard
      = (.ok ⟨.mk (.recRecord (.mk
          [("y", .mk (some (.mk (.num 2) .noPos)) {} []),
           ("x", .mk (some (.mk (.num 1) .noPos)) {} [])] {} none))
          (.inherited 3), Environment.new⟩, ⟨[], 0, []⟩) from rfl)

end Nickel
